import Mathlib

/-!
Verification development for the prism userspace network stack
(src/trap.rs, src/offload.rs, src/stack.rs, src/constants.rs).

Byte buffers (`Vec<u8>` / `&[u8]` / `Bytes`) are embedded as `List ℕ` whose
entries are byte values; bit operations on bytes are embedded arithmetically
(`x >> 4` as `x / 16`, `x & 0x0F` as `x % 16`, `(hi << 8) | lo` on disjoint
byte halves as `hi * 256 + lo`, u16 truncation as `% 256` / `% 65536`).
Functions that the Rust code performs by in-place mutation of a sub-slice are
embedded as pure functions that rebuild the buffer with `take`/`drop`/`set`.
A Rust function that can fail to terminate or panic is embedded with an
`Option` result, `none` standing for the diverging / panicking execution.
-/

namespace Prism

/-- Read a byte of a buffer: `buf[i]`.  All the reads of the embedded code are
bounds-guarded in the source, so a default of `0` is never observed. -/
def rd (buf : List ℕ) (i : ℕ) : ℕ := buf.getD i 0

/-! ## Constants (src/constants.rs) -/

/-- Default MSS clamp value for egress path compatibility (`DEFAULT_MSS_CLAMP`). -/
def DEFAULT_MSS_CLAMP : ℕ := 1280

/-- Size of the virtio_net_hdr structure (`VIRTIO_NET_HDR_SIZE`). -/
def VIRTIO_NET_HDR_SIZE : ℕ := 10

/-! ## smoltcp wire-level validity checks

The repository parses IP and TCP headers through `smoltcp::wire`.  The
`new_checked` constructors only perform length/consistency checks (checksums
are not verified there); the checks below are modelled from smoltcp's
`check_len` implementations for `Ipv4Packet`, `Ipv6Packet` and `TcpPacket`. -/

/-- IPv4 header length in bytes: `(buffer[0] & 0x0F) * 4` (IHL field). -/
def ihl (buf : List ℕ) : ℕ := (rd buf 0 % 16) * 4

/-- IPv4 total length field: big-endian u16 at bytes 2..4. -/
def total_len (buf : List ℕ) : ℕ := rd buf 2 * 256 + rd buf 3

/-- Modelled from smoltcp `Ipv4Packet::check_len`: the buffer holds the fixed
header, the full IHL-sized header, and `total_len` bytes, with
`header_len ≤ total_len`. -/
def ipv4_ok (buf : List ℕ) : Bool :=
  20 ≤ buf.length && ihl buf ≤ buf.length && ihl buf ≤ total_len buf &&
    total_len buf ≤ buf.length

/-- IPv4 payload slice `buffer[header_len .. total_len]` (smoltcp
`Ipv4Packet::payload`). -/
def ipv4_payload (buf : List ℕ) : List ℕ := (buf.take (total_len buf)).drop (ihl buf)

/-- IPv6 payload length field: big-endian u16 at bytes 4..6. -/
def ipv6_payload_len (buf : List ℕ) : ℕ := rd buf 4 * 256 + rd buf 5

/-- Modelled from smoltcp `Ipv6Packet::check_len`: the 40-byte fixed header and
the declared payload fit in the buffer. -/
def ipv6_ok (buf : List ℕ) : Bool :=
  40 ≤ buf.length && 40 + ipv6_payload_len buf ≤ buf.length

/-- TCP data offset in bytes: `(buffer[12] >> 4) * 4`. -/
def tcp_doff (seg : List ℕ) : ℕ := (rd seg 12 / 16) * 4

/-- Modelled from smoltcp `TcpPacket::check_len`: at least 20 bytes, and the
header length given by the data offset is between 20 and the segment length. -/
def tcp_ok (seg : List ℕ) : Bool :=
  20 ≤ seg.length && 20 ≤ tcp_doff seg && tcp_doff seg ≤ seg.length

/-- TCP SYN flag (bit 1 of the flags byte 13; smoltcp `FLG_SYN = 0x002`). -/
def tcp_syn (seg : List ℕ) : Bool := rd seg 13 / 2 % 2 = 1

/-- TCP ACK flag (bit 4 of the flags byte 13; smoltcp `FLG_ACK = 0x010`). -/
def tcp_ack (seg : List ℕ) : Bool := rd seg 13 / 16 % 2 = 1

/-- TCP RST flag (bit 2 of the flags byte 13; smoltcp `FLG_RST = 0x004`). -/
def tcp_rst (seg : List ℕ) : Bool := rd seg 13 / 4 % 2 = 1

/-- TCP destination port: big-endian u16 at segment bytes 2..4. -/
def tcp_dst_port (seg : List ℕ) : ℕ := rd seg 2 * 256 + rd seg 3

/-! ## Packet classifier (src/trap.rs, `get_packet_type` / `skip_ipv6_headers`) -/

/-- Result of the packet classifier (`PacketType` in src/trap.rs). -/
inductive PacketType where
  | Tcp : PacketType
  | Other : PacketType
  | Unknown : PacketType
deriving DecidableEq

/-- Loop body of `skip_ipv6_headers` (src/trap.rs lines 57-78).  The fuel is
the number of remaining `for _ in 0..10` iterations; protocol numbers are
HopByHop = 0, Ipv6Route = 43, Ipv6Frag = 44, Ipv6Opts = 60, Tcp = 6.
A fragment header is 8 bytes, the other extension headers are
`(buffer[offset+1] + 1) * 8` bytes. -/
def skip_loop (buf : List ℕ) : ℕ → ℕ → ℕ → Option (ℕ × ℕ)
  | 0, _, _ => none
  | fuel + 1, nh, off =>
    if nh = 6 then some (nh, off)
    else if nh = 0 ∨ nh = 43 ∨ nh = 44 ∨ nh = 60 then
      if off + 2 > buf.length then none
      else
        skip_loop buf fuel (rd buf off)
          (off + (if nh = 44 then 8 else (rd buf (off + 1) + 1) * 8))
    else some (nh, off)

/-- `skip_ipv6_headers` (src/trap.rs lines 52-81): start after the 40-byte
fixed header at the fixed header's Next Header field, walk at most 10
iterations. -/
def skip_ipv6_headers (buf : List ℕ) : Option (ℕ × ℕ) :=
  if buf.length < 40 then none else skip_loop buf 10 (rd buf 6) 40

/-- `get_packet_type` (src/trap.rs lines 21-50).  Note that when the IPv6 fixed
header is valid but the extension-header walk fails, the source falls through
to `PacketType::Other`. -/
def get_packet_type (buf : List ℕ) : PacketType :=
  if buf.length < 1 then .Unknown
  else
    match rd buf 0 / 16 with
    | 4 => if ipv4_ok buf then (if rd buf 9 = 6 then .Tcp else .Other) else .Unknown
    | 6 =>
      if ipv6_ok buf then
        match skip_ipv6_headers buf with
        | some (p, _) => if p = 6 then .Tcp else .Other
        | none => .Other
      else .Unknown
    | _ => .Unknown

/-! ## MSS clamping (src/trap.rs, `clamp_mss_raw`) -/

/-- Loop body of `clamp_mss_raw` (src/trap.rs lines 240-263) over the options
slice `buffer[20 .. data_offset]`.  The Rust `while` loop advances `i` by
`len`, which is `0` for an option of kind ≥ 2 (other than the terminal MSS
case) whose length byte is `0`; in that situation the Rust loop never
terminates, which the embedding reports by exhausting its fuel and returning
`none`.  Every terminating execution is reached with fuel
`options.length + 1`. -/
def clamp_loop : ℕ → List ℕ → ℕ → Option (List ℕ)
  | 0, _, _ => none
  | fuel + 1, opts, i =>
    if i < opts.length then
      let kind := rd opts i
      if kind = 0 ∨ kind = 1 then clamp_loop fuel opts (i + 1)
      else if i + 1 ≥ opts.length then some opts
      else
        let len := rd opts (i + 1)
        if i + len > opts.length then some opts
        else if kind = 2 then
          some (if len = 4 then
                  if DEFAULT_MSS_CLAMP < rd opts (i + 2) * 256 + rd opts (i + 3) then
                    (opts.set (i + 2) (DEFAULT_MSS_CLAMP / 256)).set (i + 3)
                      (DEFAULT_MSS_CLAMP % 256)
                  else opts
                else opts)
        else clamp_loop fuel opts (i + len)
    else some opts

/-- `clamp_mss_raw` (src/trap.rs lines 233-264).  Buffers shorter than 20
bytes, or whose data offset is below 20 or beyond the buffer, are returned
unchanged; otherwise the options slice `[20, data_offset)` is scanned and the
buffer is rebuilt around the (possibly rewritten) options.  `none` models the
non-terminating executions of the Rust loop. -/
def clamp_mss_raw (buf : List ℕ) : Option (List ℕ) :=
  if buf.length < 20 then some buf
  else
    let d := tcp_doff buf
    if d < 20 ∨ d > buf.length then some buf
    else
      let opts := (buf.take d).drop 20
      match clamp_loop (opts.length + 1) opts 0 with
      | none => none
      | some opts2 => some (buf.take 20 ++ opts2 ++ buf.drop d)

/-- The Rust loop of `clamp_mss_raw` diverges on this options slice (reached
whenever the walk hits an option of kind ∉ {0, 1, 2} whose length byte is 0
with at least two bytes left in the region). -/
def clamp_diverges (buf : List ℕ) : Prop :=
  ∀ fuel, clamp_loop fuel ((buf.take (tcp_doff buf)).drop 20) 0 = none

/-! ## The MSS option of a TCP segment, per the specification

Spec §4.2: option kinds 0 (EOL) and 1 (NOP) are single-byte, all others are
TLV, and at most one MSS option (kind = 2, len = 4) exists between byte 20 and
`data-offset * 4`.  `spec_find_mss` walks the options accordingly and returns
the position (relative to the start of the options region) and the value of
the MSS option; a malformed TLV (truncated, or with a length byte below 2, or
a kind-2 option whose length is not 4) ends the walk with no MSS found. -/
def spec_find_mss_loop : ℕ → List ℕ → ℕ → Option (ℕ × ℕ)
  | 0, _, _ => none
  | fuel + 1, opts, i =>
    if i < opts.length then
      let kind := rd opts i
      if kind = 0 ∨ kind = 1 then spec_find_mss_loop fuel opts (i + 1)
      else if i + 1 ≥ opts.length then none
      else
        let len := rd opts (i + 1)
        if i + len > opts.length then none
        else if kind = 2 then
          (if len = 4 then some (i, rd opts (i + 2) * 256 + rd opts (i + 3)) else none)
        else if len < 2 then none
        else spec_find_mss_loop fuel opts (i + len)
    else none

/-- Position and value of the well-formed MSS option of a TCP segment, written
from the spec's words (see `spec_find_mss_loop`). -/
def spec_find_mss (seg : List ℕ) : Option (ℕ × ℕ) :=
  if seg.length < 20 then none
  else if tcp_doff seg < 20 ∨ tcp_doff seg > seg.length then none
  else
    let opts := (seg.take (tcp_doff seg)).drop 20
    spec_find_mss_loop (opts.length + 1) opts 0

/-! ## Checksums

`inspect_tcp` recomputes the TCP checksum (and, for IPv4, the IP header
checksum) through smoltcp's `fill_checksum`.  The internet ones-complement
checksum is modelled below; only the positions it writes matter to the claims,
but the computation is carried out faithfully. -/

/-- Big-endian 16-bit ones-complement accumulation of a byte sequence, odd
trailing byte padded low (smoltcp `checksum::data`). -/
def sum16 : List ℕ → ℕ
  | a :: b :: rest => (a * 256 + b) + sum16 rest
  | [a] => a * 256
  | [] => 0

/-- smoltcp's `while sum > 0xFFFF { sum = (sum & 0xFFFF) + (sum >> 16) }` loop.
Each iteration strictly decreases a sum above 0xFFFF, so fuel `n` always
suffices to reach the fixed point. -/
def iterate_carry : ℕ → ℕ → ℕ
  | 0, n => n
  | fuel + 1, n => if 65535 < n then iterate_carry fuel (n % 65536 + n / 65536) else n

/-- Full carry propagation of an accumulated checksum. -/
def propagate_carries (n : ℕ) : ℕ := iterate_carry n n

/-- The ones-complement checksum of an accumulated sum: `!propagate(sum)` as a
u16. -/
def cksum_of (n : ℕ) : ℕ := 65535 - propagate_carries n

/-- Pseudo-header accumulation for the TCP checksum (smoltcp
`checksum::pseudo_header`): source address bytes, destination address bytes,
protocol number and segment length. -/
def pseudo_sum (src dst : List ℕ) (len : ℕ) : ℕ := sum16 src + sum16 dst + 6 + len

/-- smoltcp `TcpPacket::fill_checksum`: zero the checksum field (bytes 16-17),
accumulate pseudo-header and segment, and store the complemented sum
big-endian at bytes 16-17. -/
def tcp_fill_checksum (src dst seg : List ℕ) : List ℕ :=
  let seg0 := (seg.set 16 0).set 17 0
  let c := cksum_of (pseudo_sum src dst seg.length + sum16 seg0)
  (seg.set 16 (c / 256)).set 17 (c % 256)

/-- smoltcp `Ipv4Packet::fill_checksum`: zero bytes 10-11, checksum the header
bytes `[0, header_len)`, and store the result big-endian at bytes 10-11. -/
def ipv4_fill_checksum (buf : List ℕ) : List ℕ :=
  let b0 := (buf.set 10 0).set 11 0
  let c := cksum_of (sum16 (b0.take (ihl buf)))
  (buf.set 10 (c / 256)).set 11 (c % 256)

/-! ## SYN trap (src/trap.rs, `inspect_packet` / `inspect_ipv4` / `inspect_ipv6`
/ `inspect_tcp`) -/

/-- A socket address (`std::net::SocketAddr`): address family, raw address
bytes and port. -/
structure SockAddr where
  v6 : Bool
  ip : List ℕ
  port : ℕ
deriving DecidableEq

/-- `PrismTrap` (src/trap.rs lines 6-10): destination endpoint and the
rewritten packet. -/
structure PrismTrap where
  dst : SockAddr
  packet : List ℕ
deriving DecidableEq

/-- IPv4 source address bytes 12..16. -/
def ipv4_src (buf : List ℕ) : List ℕ := [rd buf 12, rd buf 13, rd buf 14, rd buf 15]

/-- IPv4 destination address bytes 16..20. -/
def ipv4_dst (buf : List ℕ) : List ℕ := [rd buf 16, rd buf 17, rd buf 18, rd buf 19]

/-- IPv6 source address bytes 8..24. -/
def ipv6_src (buf : List ℕ) : List ℕ := (buf.take 24).drop 8

/-- IPv6 destination address bytes 24..40. -/
def ipv6_dst (buf : List ℕ) : List ℕ := (buf.take 40).drop 24

/-- `inspect_ipv4` together with the IPv4 arm of `inspect_tcp`
(src/trap.rs lines 98-109 and 147-183).  The segment is clamped in place, the
TCP checksum is refilled (guarded by the same re-parse the source performs),
the packet is rebuilt and its IPv4 header checksum refilled.  The outer
`some` is absent exactly when `clamp_mss_raw` diverges, in which case the Rust
call never returns. -/
def inspect_ipv4 (buf : List ℕ) : Option (Option PrismTrap) :=
  if ipv4_ok buf then
    if rd buf 9 = 6 then
      let payload := ipv4_payload buf
      if tcp_ok payload && tcp_syn payload && !tcp_ack payload then
        match clamp_mss_raw payload with
        | none => none
        | some clamped =>
          let seg2 := if tcp_ok clamped then
              tcp_fill_checksum (ipv4_src buf) (ipv4_dst buf) clamped
            else clamped
          let out := ipv4_fill_checksum
              (buf.take (ihl buf) ++ seg2 ++ buf.drop (total_len buf))
          some (some ⟨⟨false, ipv4_dst buf, tcp_dst_port payload⟩, out⟩)
      else some none
    else some none
  else some none

/-- `inspect_ipv6` together with the IPv6 arm of `inspect_tcp`
(src/trap.rs lines 111-126 and 184-223).  The outer function requires
`offset ≤ len`, the inner re-inspection requires `offset < len`; the segment
is clamped and the TCP checksum refilled over the IPv6 pseudo-header. -/
def inspect_ipv6 (buf : List ℕ) : Option (Option PrismTrap) :=
  if ipv6_ok buf then
    match skip_ipv6_headers buf with
    | some (p, off) =>
      if p = 6 then
        if off > buf.length then some none
        else if off < buf.length then
          let seg := buf.drop off
          if tcp_ok seg && tcp_syn seg && !tcp_ack seg then
            match clamp_mss_raw seg with
            | none => none
            | some clamped =>
              let seg2 := if tcp_ok clamped then
                  tcp_fill_checksum (ipv6_src buf) (ipv6_dst buf) clamped
                else clamped
              let out := buf.take off ++ seg2
              some (some ⟨⟨true, ipv6_dst buf, tcp_dst_port seg⟩, out⟩)
          else some none
        else some none
      else some none
    | none => some none
  else some none

/-- `inspect_packet` (src/trap.rs lines 84-96): length guard, then dispatch on
the version nibble.  `some none` embeds a `None` return, `some (some t)` a
`Some(trap)` return, and `none` the executions on which `clamp_mss_raw` never
terminates. -/
def inspect_packet (buf : List ℕ) : Option (Option PrismTrap) :=
  if buf.length < 20 then some none
  else
    match rd buf 0 / 16 with
    | 4 => inspect_ipv4 buf
    | 6 => inspect_ipv6 buf
    | _ => some none

/-- Whether `inspect_packet` returns a trap event. -/
def inspect_emits (buf : List ℕ) : Bool :=
  match inspect_packet buf with
  | some (some _) => true
  | _ => false

/-! ## Offload codec (src/offload.rs) -/

/-- `VirtioNetHdr` (src/offload.rs lines 21-28): the six fields of the 10-byte
virtio-net header. -/
structure VirtioNetHdr where
  flags : ℕ
  gso_type : ℕ
  hdr_len : ℕ
  gso_size : ℕ
  csum_start : ℕ
  csum_offset : ℕ
deriving DecidableEq

/-- Little-endian encoding of a u16 (`u16::to_le_bytes`). -/
def u16_le (v : ℕ) : List ℕ := [v % 256, v / 256 % 256]

/-- `VirtioNetHdr::parse` (src/offload.rs lines 32-44): four little-endian u16
fields after the two flag bytes. -/
def virtio_parse (buf : List ℕ) : Option VirtioNetHdr :=
  if buf.length < VIRTIO_NET_HDR_SIZE then none
  else some ⟨rd buf 0, rd buf 1, rd buf 2 + 256 * rd buf 3, rd buf 4 + 256 * rd buf 5,
    rd buf 6 + 256 * rd buf 7, rd buf 8 + 256 * rd buf 9⟩

/-- `VirtioNetHdr::write_to` (src/offload.rs lines 47-55), as the 10 bytes it
stores at the front of the destination buffer. -/
def virtio_write (h : VirtioNetHdr) : List ℕ :=
  [h.flags, h.gso_type] ++ u16_le h.hdr_len ++ u16_le h.gso_size ++
    u16_le h.csum_start ++ u16_le h.csum_offset

/-- `strip_virtio_hdr` (src/offload.rs lines 68-70): `&buf[VIRTIO_NET_HDR_SIZE..]`,
which panics (`none`) when the buffer is shorter than the 10-byte header. -/
def strip_virtio_hdr (buf : List ℕ) : Option (List ℕ) :=
  if buf.length < VIRTIO_NET_HDR_SIZE then none else some (buf.drop VIRTIO_NET_HDR_SIZE)

/-- `prepend_virtio_hdr_none` (src/offload.rs lines 75-80): 10 zero bytes then
the packet. -/
def prepend_virtio_hdr_none (packet : List ℕ) : List ℕ :=
  List.replicate VIRTIO_NET_HDR_SIZE 0 ++ packet

/-- `prepend_virtio_hdr_csum` (src/offload.rs lines 88-129): inspect version
and L4 protocol; prepend a NEEDS_CSUM header for TCP/UDP, else fall back to
`prepend_virtio_hdr_none`.  The protocol reads `packet[9]` (version 4) and
`packet[6]` (version 6) are not bounds-guarded in the source: on a nonempty
version-4 buffer shorter than 10 bytes, or a version-6 buffer shorter than
7 bytes, the Rust function panics, which the embedding reports as `none`. -/
def prepend_virtio_hdr_csum (packet : List ℕ) : Option (List ℕ) :=
  if packet.length = 0 then some (prepend_virtio_hdr_none packet)
  else
    match rd packet 0 / 16 with
    | 4 =>
      if packet.length ≤ 9 then none
      else
        match rd packet 9 with
        | 6 => some (virtio_write ⟨1, 0, 0, 0, ihl packet, 16⟩ ++ packet)
        | 17 => some (virtio_write ⟨1, 0, 0, 0, ihl packet, 6⟩ ++ packet)
        | _ => some (prepend_virtio_hdr_none packet)
    | 6 =>
      if packet.length ≤ 6 then none
      else
        match rd packet 6 with
        | 6 => some (virtio_write ⟨1, 0, 0, 0, 40, 16⟩ ++ packet)
        | 17 => some (virtio_write ⟨1, 0, 0, 0, 40, 6⟩ ++ packet)
        | _ => some (prepend_virtio_hdr_none packet)
    | _ => some (prepend_virtio_hdr_none packet)

/-! ## IPv6 extension-header chains (for the classifier boundary claims)

A well-formed IPv6 packet carrying `n` chained HopByHop options followed by a
20-byte TCP header: fixed header with payload length `8 * n + 20`, then `n`
8-byte extension headers whose last Next Header field is TCP. -/

/-- The extension-header chain followed by a zeroed 20-byte TCP header:
`ext_chain (m + 1)` starts with an 8-byte HopByHop header whose Next Header is
TCP when it is the last one. -/
def ext_chain : ℕ → List ℕ
  | 0 => List.replicate 20 0
  | m + 1 => (if m = 0 then 6 else 0) :: 0 :: 0 :: 0 :: 0 :: 0 :: 0 :: 0 :: ext_chain m

/-- An IPv6 packet with `n` chained HopByHop extension headers and then a TCP
header. -/
def mk_v6_chain (n : ℕ) : List ℕ :=
  0x60 :: 0 :: 0 :: 0 :: ((8 * n + 20) / 256) :: ((8 * n + 20) % 256) ::
    (if n = 0 then 6 else 0) :: 64 :: (List.replicate 32 0 ++ ext_chain n)

/-! ## The stack event loop (src/stack.rs)

`PrismStack::run` is a `tokio::select!` event loop owning the socket set, the
active-tunnel map, the pending-SYN map and the PHY pending queue.  It is
embedded as a state machine: each constructor of `StackEv` is one occurrence
of an event the loop reacts to, and `step` is the loop's synchronous handling
of that event.  Channel senders/receivers, socket buffers and the smoltcp
poll itself carry no state the claims mention; the environment-controlled
outcomes the handlers branch on (`try_send` success, `can_send`, a socket
reaching `Closed`/`TimeWait` during poll) are event parameters.  A `step`
result of `none` embeds a panicking (or never-terminating) loop iteration. -/

/-- The TCP sockets the stack creates are listening sockets for one trapped
endpoint; beyond its endpoint only the terminal-state flag (`Closed` or
`TimeWait`, which triggers reaping) is relevant to the claims. -/
structure TcpSocketM where
  endpoint : SockAddr
  closed : Bool
deriving DecidableEq

/-- `HandshakeMode` (src/stack.rs lines 24-28). -/
inductive HandshakeMode where
  | Fast : HandshakeMode
  | Consistent : HandshakeMode
deriving DecidableEq

/-- The mutable state of `PrismStack` that the claims are about
(src/stack.rs lines 42-71): the pending-SYN map (`HashMap<SocketAddr, …>` as
an association list), the active-tunnel keys (`HashMap<SocketHandle, Sender>`;
the sender itself carries no modelled state), the socket set (a slab indexed
by handle, as in smoltcp's `SocketSet`), the PHY pending queue, the packets
delivered to the blind-relay channel, and the interface address list. -/
structure StackState where
  mode : HandshakeMode
  req_configured : Bool
  relay_configured : Bool
  pending_syns : List (SockAddr × PrismTrap)
  active_tunnels : List ℕ
  sockets : List (Option TcpSocketM)
  pending_packets : List (List ℕ)
  blind_relay : List (List ℕ)
  addrs : List (List ℕ)
deriving DecidableEq

/-- Lookup in the pending-SYN map. -/
def alist_lookup (t : SockAddr) : List (SockAddr × PrismTrap) → Option PrismTrap
  | [] => none
  | (k, v) :: rest => if k = t then some v else alist_lookup t rest

/-- `HashMap::remove` on the pending-SYN map.  A `HashMap` has at most one
entry per key, so removal is embedded as dropping every entry with the key. -/
def alist_erase (t : SockAddr) : List (SockAddr × PrismTrap) → List (SockAddr × PrismTrap)
  | [] => []
  | (k, v) :: rest => if k = t then alist_erase t rest else (k, v) :: alist_erase t rest

/-- `HashMap::insert` on the pending-SYN map (replaces an existing entry). -/
def alist_insert (t : SockAddr) (v : PrismTrap) (l : List (SockAddr × PrismTrap)) :
    List (SockAddr × PrismTrap) :=
  alist_erase t l ++ [(t, v)]

/-- smoltcp `SocketSet::add`: store the socket in the first vacant slot, or
append a new slot; the slot index is the handle. -/
def add_socket : List (Option TcpSocketM) → TcpSocketM → ℕ × List (Option TcpSocketM)
  | [], sck => (0, [some sck])
  | none :: rest, sck => (0, some sck :: rest)
  | some x :: rest, sck =>
    let hr := add_socket rest sck
    (hr.1 + 1, some x :: hr.2)

/-- smoltcp `SocketSet::remove`: vacate the slot (the handle stays allocated
but no longer refers to a socket). -/
def remove_socket (l : List (Option TcpSocketM)) (h : ℕ) : List (Option TcpSocketM) :=
  l.set h none

/-- `initiate_consistent_handshake` (src/stack.rs lines 359-390): if the
tunnel-request channel is configured and `try_send` succeeds, buffer the
original SYN keyed by target and spawn the feedback task; on `try_send`
failure only an error is logged.  `reqOk` is the environment's `try_send`
outcome. -/
def initiate_consistent_handshake (s : StackState) (ev : PrismTrap) (pkt : List ℕ)
    (reqOk : Bool) : StackState :=
  if s.req_configured then
    if reqOk then
      { s with pending_syns := alist_insert ev.dst ⟨ev.dst, pkt⟩ s.pending_syns }
    else s
  else s

/-- `initiate_fast_handshake` (src/stack.rs lines 392-436): listen (a fresh
smoltcp TCP socket's `listen` fails exactly on port 0), add the socket,
re-inject the original SYN, then request a tunnel; if the request cannot be
enqueued the socket is removed, otherwise the handle becomes an active
tunnel. -/
def initiate_fast_handshake (s : StackState) (ev : PrismTrap) (pkt : List ℕ)
    (reqOk : Bool) : StackState :=
  if ev.dst.port = 0 then s
  else
    let hs := add_socket s.sockets ⟨ev.dst, false⟩
    let s1 := { s with sockets := hs.2,
                       pending_packets := s.pending_packets ++ [pkt] }
    if s1.req_configured then
      if reqOk then { s1 with active_tunnels := s1.active_tunnels ++ [hs.1] }
      else { s1 with sockets := remove_socket s1.sockets hs.1 }
    else s1

/-- `handle_trap` (src/stack.rs lines 312-357): register the target address on
the interface (as a /32 or /128, if not already present), then dispatch on the
handshake mode. -/
def handle_trap (s : StackState) (ev : PrismTrap) (pkt : List ℕ) (reqOk : Bool) :
    StackState :=
  let s0 := { s with addrs := if s.addrs.contains ev.dst.ip then s.addrs
                              else s.addrs ++ [ev.dst.ip] }
  match s0.mode with
  | .Consistent => initiate_consistent_handshake s0 ev pkt reqOk
  | .Fast => initiate_fast_handshake s0 ev pkt reqOk

/-- `handle_handshake_feedback` (src/stack.rs lines 438-472): remove the
pending entry for the target if present; on success create the listening
socket (fails only on port 0), register the tunnel and re-inject the buffered
SYN; on failure only a warning is logged. -/
def handle_handshake_feedback (s : StackState) (target : SockAddr) (success : Bool) :
    StackState :=
  match alist_lookup target s.pending_syns with
  | none => s
  | some trap =>
    let s1 := { s with pending_syns := alist_erase target s.pending_syns }
    if success then
      if target.port = 0 then s1
      else
        let hs := add_socket s1.sockets ⟨target, false⟩
        { s1 with sockets := hs.2,
                  active_tunnels := s1.active_tunnels ++ [hs.1],
                  pending_packets := s1.pending_packets ++ [trap.packet] }
    else s1

/-- The events one iteration of `PrismStack::run` reacts to.
`ingress` is the arrival of one packet on the TUN channel (Event A), with the
environment outcomes of `tunnel_req_tx.try_send` and `blind_relay_tx.try_send`;
`tunnel_data` is one `(handle, bytes)` item from the ingress fan-in (Event B)
with the socket's `can_send` outcome; `feedback` is Event C; `sock_close` is
the smoltcp poll driving a socket to `Closed`/`TimeWait`; `poll_reap` is the
end-of-iteration egress pump and reap (steps 4-5). -/
inductive StackEv where
  | ingress (pkt : List ℕ) (reqOk relayOk : Bool)
  | tunnel_data (h : ℕ) (can_send : Bool)
  | feedback (t : SockAddr) (success : Bool)
  | sock_close (h : ℕ)
  | poll_reap

/-- One loop iteration handling one event (src/stack.rs lines 143-306).
Event A classifies the packet: TCP packets are inspected for a SYN trap and
otherwise pushed into the PHY pending queue — including when the classifier
returns `Unknown` (lines 195-204); `Other` goes to the blind relay when it is
configured.  Event B looks the handle up with `SocketSet::get_mut`, which
panics when the handle no longer refers to a socket (modelled by `none`); a
live socket absorbs the bytes (or drops the overflow) with no modelled state
change.  `poll_reap` removes active sockets in a terminal state from both the
registry and the socket set; the egress pump's own `get_mut` would panic on a
stale active handle. -/
def step : StackEv → StackState → Option StackState
  | .ingress pkt reqOk relayOk, s =>
    match get_packet_type pkt with
    | .Tcp =>
      match inspect_packet pkt with
      | none => none
      | some (some ev) => some (handle_trap s ev pkt reqOk)
      | some none => some { s with pending_packets := s.pending_packets ++ [pkt] }
    | .Other =>
      if s.relay_configured then
        some { s with blind_relay := if relayOk then s.blind_relay ++ [pkt]
                                     else s.blind_relay }
      else some { s with pending_packets := s.pending_packets ++ [pkt] }
    | .Unknown => some { s with pending_packets := s.pending_packets ++ [pkt] }
  | .tunnel_data h _canSend, s =>
    match s.sockets.getD h none with
    | none => none
    | some _ => some s
  | .feedback t success, s => some (handle_handshake_feedback s t success)
  | .sock_close h, s =>
    some { s with sockets :=
      s.sockets.set h ((s.sockets.getD h none).map (fun so => { so with closed := true })) }
  | .poll_reap, s =>
    if s.active_tunnels.all (fun h => (s.sockets.getD h none).isSome) then
      let closed_h := s.active_tunnels.filter
          (fun h => match s.sockets.getD h none with
                    | some so => so.closed
                    | none => false)
      some { s with
        active_tunnels := s.active_tunnels.filter
          (fun h => match s.sockets.getD h none with
                    | some so => !so.closed
                    | none => true),
        sockets := closed_h.foldl (fun l h => l.set h none) s.sockets }
    else none

/-- A run of the event loop over a sequence of events. -/
def run_events : List StackEv → StackState → Option StackState
  | [], s => some s
  | e :: es, s =>
    match step e s with
    | none => none
    | some s1 => run_events es s1

/-- The freshly constructed stack (`PrismStack::new` plus the optional channel
configuration): all maps, the socket set and the queues empty. -/
def init_state (m : HandshakeMode) (rq rl : Bool) : StackState :=
  ⟨m, rq, rl, [], [], [], [], [], []⟩

/-- Whether a pending SYN for the target exists. -/
def pending_has (s : StackState) (t : SockAddr) : Bool :=
  (alist_lookup t s.pending_syns).isSome

/-- Whether some active tunnel's socket listens on the target endpoint. -/
def active_to (s : StackState) (t : SockAddr) : Bool :=
  s.active_tunnels.any (fun h =>
    match s.sockets.getD h none with
    | some so => so.endpoint = t
    | none => false)

/-- Whether an event is the arrival of a packet that traps to target `t`
(reaches `handle_trap` with destination `t`). -/
def traps_to (t : SockAddr) : StackEv → Bool
  | .ingress pkt _ _ =>
    (match get_packet_type pkt with
     | .Tcp =>
       match inspect_packet pkt with
       | some (some ev) => ev.dst = t
       | _ => false
     | _ => false)
  | _ => false

/-! ## Derived notions used by the claims -/

/-- The TCP segment of a packet, located the way the source locates it:
the IPv4 payload slice `[header_len, total_len)` when the packet is a valid
TCP-carrying IPv4 packet, and the bytes after the extension headers when it is
a valid IPv6 packet whose walk ends at TCP strictly inside the buffer. -/
def tcp_segment (buf : List ℕ) : Option (List ℕ) :=
  match rd buf 0 / 16 with
  | 4 =>
    if ipv4_ok buf then
      if rd buf 9 = 6 then some (ipv4_payload buf) else none
    else none
  | 6 =>
    if ipv6_ok buf then
      match skip_ipv6_headers buf with
      | some (p, off) =>
        if p = 6 then (if off < buf.length then some (buf.drop off) else none) else none
      | none => none
    else none
  | _ => none

/-- The exact condition under which `inspect_packet` emits a trap event: the
buffer is a valid TCP-carrying IPv4 or IPv6 packet, the full TCP header
(at least 20 bytes, data-offset consistent) fits within the packet, the first
TCP segment has SYN=1 and ACK=0 (the RST flag is not examined), and the MSS
option scan of `clamp_mss_raw` terminates. -/
def trap_condition (buf : List ℕ) : Prop :=
  20 ≤ buf.length ∧
  ((rd buf 0 / 16 = 4 ∧ ipv4_ok buf = true ∧ rd buf 9 = 6 ∧
      tcp_ok (ipv4_payload buf) = true ∧ tcp_syn (ipv4_payload buf) = true ∧
      tcp_ack (ipv4_payload buf) = false ∧ (clamp_mss_raw (ipv4_payload buf)).isSome = true) ∨
   (rd buf 0 / 16 = 6 ∧ ipv6_ok buf = true ∧
      ∃ off, skip_ipv6_headers buf = some (6, off) ∧ off < buf.length ∧
        tcp_ok (buf.drop off) = true ∧ tcp_syn (buf.drop off) = true ∧
        tcp_ack (buf.drop off) = false ∧ (clamp_mss_raw (buf.drop off)).isSome = true))

/-! ## Concrete packets and traces -/

/-- The IPv4 TCP SYN of the repository's tests (`build_ipv4_tcp_syn(1460)`):
44 bytes, IHL 5, data offset 6, flags SYN, MSS option 1460.  The checksum
fields are left zero (smoltcp's checked parse does not verify checksums). -/
def pkt44 : List ℕ :=
  [0x45, 0, 0, 44, 0, 0, 0, 0, 64, 6, 0, 0, 192, 168, 1, 1, 10, 0, 0, 1,
   48, 57, 0, 80, 0, 0, 0, 0, 0, 0, 0, 0, 6 * 16, 2, 255, 255, 0, 0, 0, 0,
   2, 4, 5, 180]

/-- A 40-byte IPv4 TCP segment whose flags byte is `0x06` (SYN=1, RST=1,
ACK=0). -/
def syn_rst_pkt : List ℕ :=
  [0x45, 0, 0, 40, 0, 0, 0, 0, 64, 6, 0, 0, 192, 168, 1, 1, 10, 0, 0, 1,
   0, 99, 0, 80, 0, 0, 0, 0, 0, 0, 0, 0, 5 * 16, 6, 255, 255, 0, 0, 0, 0]

/-- A 24-byte TCP segment (data offset 6) whose options region is
`[3, 0, 0, 0]`: an option of kind 3 with length byte 0, on which the Rust
`clamp_mss_raw` loop never advances. -/
def stuck_opts_buf : List ℕ :=
  [0, 0, 0, 0, 0, 0, 0, 0, 0, 0, 0, 0, 6 * 16, 2, 0, 0, 0, 0, 0, 0, 3, 0, 0, 0]

/-- A valid IPv6 fixed header whose single HopByHop extension header declares a
length far beyond the buffer: the walk hits the truncation check and fails. -/
def v6_truncated : List ℕ :=
  [0x60, 0, 0, 0, 0, 8, 0, 64] ++ List.replicate 32 0 ++ [0, 10, 0, 0, 0, 0, 0, 0]

/-- A 10-byte virtio-net header buffer (NEEDS_CSUM, GSO none, csum_start 34,
csum_offset 16, gso_size 1460). -/
def vbuf10 : List ℕ := [1, 0, 54, 0, 180, 5, 34, 0, 16, 0]

/-- The trap event `inspect_packet` emits for `pkt44`. -/
def trap44 : PrismTrap :=
  ((inspect_packet pkt44).getD none).getD ⟨⟨false, [], 0⟩, []⟩

/-- The clamped form of the TCP segment of `pkt44`. -/
def out44 : List ℕ := (clamp_mss_raw (ipv4_payload pkt44)).getD []

/-- The destination endpoint of the SYN `pkt44`. -/
def syn_target : SockAddr := ⟨false, [10, 0, 0, 1], 80⟩

/-- Consistent-mode trace: trap the SYN, confirm the tunnel, then receive the
client's retransmitted SYN.  After it, a pending SYN for `syn_target`
coexists with an active tunnel listening on `syn_target`. -/
def c3_events : List StackEv :=
  [.ingress pkt44 true true, .feedback syn_target true, .ingress pkt44 true true]

/-- Consistent-mode trace with a single trap. -/
def c3_single_events : List StackEv :=
  [.ingress pkt44 true true, .feedback syn_target true]

/-- The state reached by `c3_single_events`. -/
def c3_single_state : StackState :=
  (run_events c3_single_events (init_state .Consistent true true)).getD
    (init_state .Consistent true true)

/-- Fast-mode trace: trap the SYN (socket handle 0 becomes an active tunnel),
let the socket reach a terminal state, reap it, then dequeue a tunnel-ingress
item for the stale handle 0. -/
def c4_events : List StackEv :=
  [.ingress pkt44 true true, .sock_close 0, .poll_reap, .tunnel_data 0 true]

/-! # Theorems -/

/-! ## Association-list lemmas -/

theorem alist_erase_of_lookup_none {t : SockAddr} {l : List (SockAddr × PrismTrap)}
    (h : alist_lookup t l = none) : alist_erase t l = l := by
  induction l with
  | nil => rfl
  | cons kv rest ih =>
    obtain ⟨k, v⟩ := kv
    rw [alist_lookup] at h
    rw [alist_erase]
    split at h
    · exact absurd h (by simp)
    · next hne => rw [if_neg hne, ih h]

theorem alist_lookup_erase_self (t : SockAddr) (l : List (SockAddr × PrismTrap)) :
    alist_lookup t (alist_erase t l) = none := by
  induction l with
  | nil => rfl
  | cons kv rest ih =>
    obtain ⟨k, v⟩ := kv
    rw [alist_erase]
    split
    · exact ih
    · next hne => rw [alist_lookup, if_neg hne]; exact ih

theorem alist_lookup_erase_ne {t k : SockAddr} (hne : t ≠ k)
    (l : List (SockAddr × PrismTrap)) :
    alist_lookup t (alist_erase k l) = alist_lookup t l := by
  induction l with
  | nil => rfl
  | cons kv rest ih =>
    obtain ⟨k1, v⟩ := kv
    rw [alist_erase, alist_lookup]
    split
    · next he => rw [if_neg (by rw [he]; exact fun hh => hne hh.symm), ih]
    · rw [alist_lookup]
      split
      · rfl
      · exact ih

theorem alist_lookup_insert_ne {t k : SockAddr} (hne : t ≠ k) (v : PrismTrap)
    (l : List (SockAddr × PrismTrap)) :
    alist_lookup t (alist_insert k v l) = alist_lookup t l := by
  rw [alist_insert]
  have happ : ∀ l1 l2, alist_lookup t (l1 ++ l2) =
      (alist_lookup t l1).orElse (fun _ => alist_lookup t l2) := by
    intro l1
    induction l1 with
    | nil => intro l2; rfl
    | cons kv rest ih =>
      intro l2
      obtain ⟨k1, v1⟩ := kv
      rw [List.cons_append, alist_lookup, alist_lookup]
      split
      · rfl
      · exact ih l2
  rw [happ, alist_lookup_erase_ne hne, alist_lookup, if_neg (fun hh => hne hh.symm)]
  cases alist_lookup t l <;> rfl

/-- Claim C7: handshake feedback with `success = false` removes the pending-SYN
entry for the target (if any) and changes nothing else: no packet is injected
into the PHY pending queue, no socket is added, no tunnel is registered. -/
theorem feedback_failure_drops_pending (s : StackState) (t : SockAddr) :
    handle_handshake_feedback s t false =
      { s with pending_syns := alist_erase t s.pending_syns } := by
  rw [handle_handshake_feedback]
  cases h : alist_lookup t s.pending_syns with
  | none => rw [alist_erase_of_lookup_none h]
  | some trap => simp

/-! ## Claim C5: packets the classifier labels Unknown -/

/-- Claim C5 counterexample: the event loop does not drop an Unknown-classified
packet — it enqueues it into the PHY pending queue (src/stack.rs line 203). -/
theorem unknown_packet_enqueued :
    get_packet_type [255, 0] = PacketType.Unknown ∧
      run_events [.ingress [255, 0] true true] (init_state .Fast true true) =
        some ⟨.Fast, true, true, [], [], [], [[255, 0]], [], []⟩ := by
  constructor
  · rfl
  · rfl

/-- Claim C5 (amended): an ingress packet the classifier labels Unknown is
pushed into the PHY pending queue (so the smoltcp stack sees it during poll);
it is not handed to the blind-relay channel, produces no trap event, and
changes no other stack state. -/
theorem unknown_goes_to_pending (s : StackState) (pkt : List ℕ) (reqOk relayOk : Bool)
    (h : get_packet_type pkt = PacketType.Unknown) :
    step (.ingress pkt reqOk relayOk) s =
      some { s with pending_packets := s.pending_packets ++ [pkt] } := by
  rw [step, h]

theorem unknown_goes_to_pending_witness :
    step (.ingress [255, 0] true true) (init_state .Fast true true) =
      some { init_state .Fast true true with
             pending_packets := (init_state .Fast true true).pending_packets ++ [[255, 0]] } :=
  unknown_goes_to_pending (init_state .Fast true true) [255, 0] true true (by rfl)

/-! ## Claim C4: tunnel-ingress items for reaped socket handles -/

/-- Claim C4: dequeuing a tunnel-ingress item for a handle that was reaped in
an earlier iteration makes the event loop call `SocketSet::get_mut` on a
vacated slot, which panics — the item is not ignored gracefully as the in-code
comment (src/stack.rs line 304) and the specification state. -/
theorem stale_handle_panics :
    run_events c4_events (init_state .Fast true true) = none := by rfl

/-! ## Claim C3: pending SYNs versus active tunnels -/

/-- Claim C3 counterexample: after a Consistent-mode handshake completes and
the client retransmits its SYN, the reached state holds a pending SYN for the
target while an active tunnel to the same target exists, violating the claimed
invariant (and its reverse direction already fails in the initial state). -/
theorem pending_active_coexist :
    (run_events c3_events (init_state .Consistent true true)).map
        (fun s => (pending_has s syn_target, active_to s syn_target)) =
      some (true, true) := by rfl

/-! ## Claim C2: IPv6 extension-header walk bounds -/

set_option maxRecDepth 4000 in
/-- Claim C2 counterexample: an IPv6 packet with exactly 10 chained HopByHop
options followed by TCP is classified `Other` (the walk's 10 iterations are
exhausted consuming the headers), not by the terminal L4 protocol; and with 11
extension headers the classifier also returns `Other`, not `Unknown`. -/
theorem ten_ext_headers_other :
    get_packet_type (mk_v6_chain 10) = PacketType.Other ∧
      get_packet_type (mk_v6_chain 11) = PacketType.Other := by
  constructor
  · rfl
  · rfl

/-! ## Claim C9: offload codec round-trips -/

/-- Claim C9: parsing a 10-byte virtio-net header buffer and re-serializing it
is bit-exact; stripping the 10-byte header prepended by
`prepend_virtio_hdr_none` recovers the original packet; and whenever
`prepend_virtio_hdr_csum` returns — it panics only on nonempty buffers too
short to hold the protocol field, and succeeds on every buffer of at least 10
bytes, hence on every whole IP packet — stripping its result also recovers the
original packet. -/
theorem virtio_roundtrip (buf pkt : List ℕ) (hlen : buf.length = 10)
    (hb : ∀ b ∈ buf, b < 256) :
    (virtio_parse buf).map virtio_write = some buf ∧
      strip_virtio_hdr (prepend_virtio_hdr_none pkt) = some pkt ∧
      (∀ out, prepend_virtio_hdr_csum pkt = some out →
        strip_virtio_hdr out = some pkt) ∧
      (10 ≤ pkt.length → (prepend_virtio_hdr_csum pkt).isSome = true) := by
  have hnone : ∀ q : List ℕ, strip_virtio_hdr (prepend_virtio_hdr_none q) = some q := by
    intro q
    rw [strip_virtio_hdr, if_neg (by simp [prepend_virtio_hdr_none, VIRTIO_NET_HDR_SIZE])]
    exact congrArg some (List.drop_left' rfl)
  have hwr : ∀ (h : VirtioNetHdr) (q : List ℕ),
      strip_virtio_hdr (virtio_write h ++ q) = some q := by
    intro h q
    rw [strip_virtio_hdr, if_neg (by simp [virtio_write, u16_le, VIRTIO_NET_HDR_SIZE])]
    exact congrArg some (List.drop_left' rfl)
  refine ⟨?_, hnone pkt, ?_, ?_⟩
  · rcases buf with _ | ⟨b0, buf⟩; · simp at hlen
    rcases buf with _ | ⟨b1, buf⟩; · simp at hlen
    rcases buf with _ | ⟨b2, buf⟩; · simp at hlen
    rcases buf with _ | ⟨b3, buf⟩; · simp at hlen
    rcases buf with _ | ⟨b4, buf⟩; · simp at hlen
    rcases buf with _ | ⟨b5, buf⟩; · simp at hlen
    rcases buf with _ | ⟨b6, buf⟩; · simp at hlen
    rcases buf with _ | ⟨b7, buf⟩; · simp at hlen
    rcases buf with _ | ⟨b8, buf⟩; · simp at hlen
    rcases buf with _ | ⟨b9, buf⟩; · simp at hlen
    rcases buf with _ | ⟨b10, buf⟩
    swap; · simp at hlen
    simp only [List.mem_cons, forall_eq_or_imp] at hb
    obtain ⟨h0, h1, h2, h3, h4, h5, h6, h7, h8, h9, -⟩ := hb
    simp only [virtio_parse, virtio_write, u16_le, rd, VIRTIO_NET_HDR_SIZE]
    norm_num [List.getD]
    simp only [virtio_write, u16_le, List.cons_append, List.nil_append, List.cons.injEq,
      and_true, true_and]
    omega
  · intro out hout
    rw [prepend_virtio_hdr_csum] at hout
    split at hout
    · obtain rfl := Option.some.inj hout
      exact hnone pkt
    · split at hout
      · split at hout
        · exact absurd hout (by simp)
        · split at hout
          · obtain rfl := Option.some.inj hout
            exact hwr _ _
          · obtain rfl := Option.some.inj hout
            exact hwr _ _
          · obtain rfl := Option.some.inj hout
            exact hnone pkt
      · split at hout
        · exact absurd hout (by simp)
        · split at hout
          · obtain rfl := Option.some.inj hout
            exact hwr _ _
          · obtain rfl := Option.some.inj hout
            exact hwr _ _
          · obtain rfl := Option.some.inj hout
            exact hnone pkt
      · obtain rfl := Option.some.inj hout
        exact hnone pkt
  · intro hp10
    rw [prepend_virtio_hdr_csum]
    split
    · simp
    · split
      · rw [if_neg (by omega)]
        split <;> simp
      · rw [if_neg (by omega)]
        split <;> simp
      · simp

/-- Witness for `virtio_roundtrip`: the concrete header bytes `vbuf10` and the
concrete SYN `pkt44`. -/
theorem virtio_roundtrip_witness :
    vbuf10.length = 10 ∧ (∀ b ∈ vbuf10, b < 256) ∧
      ((virtio_parse vbuf10).map virtio_write = some vbuf10 ∧
        strip_virtio_hdr (prepend_virtio_hdr_none pkt44) = some pkt44 ∧
        (∀ out, prepend_virtio_hdr_csum pkt44 = some out →
          strip_virtio_hdr out = some pkt44) ∧
        (10 ≤ pkt44.length → (prepend_virtio_hdr_csum pkt44).isSome = true)) :=
  ⟨by decide, by decide, virtio_roundtrip vbuf10 pkt44 (by rfl) (by decide)⟩

/-! ## Claim C10 counterexample: divergence of the option walk -/

/-- Claim C10 counterexample: `clamp_mss_raw` is not total.  On a buffer whose
options region starts with an option of kind 3 and length byte 0, the Rust
loop repeats the same state forever: no amount of fuel makes the embedded loop
return, and `clamp_mss_raw` reports the divergence. -/
theorem clamp_mss_raw_diverges :
    clamp_diverges stuck_opts_buf ∧ clamp_mss_raw stuck_opts_buf = none := by
  constructor
  · intro fuel
    show clamp_loop fuel ((stuck_opts_buf.take (tcp_doff stuck_opts_buf)).drop 20) 0 = none
    have hopts : (stuck_opts_buf.take (tcp_doff stuck_opts_buf)).drop 20 = [3, 0, 0, 0] := by rfl
    rw [hopts]
    induction fuel with
    | zero => rfl
    | succ f ih =>
      show clamp_loop (f + 1) [3, 0, 0, 0] 0 = none
      rw [clamp_loop]
      norm_num
      exact ih
  · rfl

/-! ## Clamp-loop lemma suite -/


theorem rd_set_ne {l : List ℕ} {i j v : ℕ} (h : j ≠ i) : rd (l.set i v) j = rd l j := by
  rw [rd, rd, List.getD_eq_getElem?_getD, List.getD_eq_getElem?_getD,
    List.getElem?_set_ne (fun he => h he.symm)]

theorem rd_set_eq {l : List ℕ} {i v : ℕ} (h : i < l.length) : rd (l.set i v) i = v := by
  rw [rd, List.getD_eq_getElem?_getD, List.getElem?_set_self h]
  rfl

theorem clamp_loop_spec : ∀ (f : ℕ) (opts : List ℕ) (i : ℕ) (r : List ℕ),
    clamp_loop f opts i = some r →
    r = opts ∨ ∃ k, i ≤ k ∧ k + 4 ≤ opts.length ∧ rd opts k = 2 ∧ rd opts (k + 1) = 4 ∧
      DEFAULT_MSS_CLAMP < rd opts (k + 2) * 256 + rd opts (k + 3) ∧
      r = (opts.set (k + 2) (DEFAULT_MSS_CLAMP / 256)).set (k + 3) (DEFAULT_MSS_CLAMP % 256) := by
  intro f
  induction f with
  | zero => intro opts i r h; simp [clamp_loop] at h
  | succ f ih =>
    intro opts i r h
    simp only [clamp_loop] at h
    split at h
    case isTrue hi =>
      split at h
      case isTrue hk01 =>
        rcases ih _ _ _ h with h1 | ⟨k, hik, hk4, hb2, hb4, hval, hr⟩
        · exact Or.inl h1
        · exact Or.inr ⟨k, by omega, hk4, hb2, hb4, hval, hr⟩
      case isFalse hk01 =>
        split at h
        case isTrue hb1 => exact Or.inl (Option.some.inj h).symm
        case isFalse hb1 =>
          split at h
          case isTrue hb2 => exact Or.inl (Option.some.inj h).symm
          case isFalse hb2 =>
            split at h
            case isTrue hk2 =>
              have hin := (Option.some.inj h).symm
              split at hin
              case isTrue hl4 =>
                split at hin
                case isTrue hval =>
                  refine Or.inr ⟨i, le_refl i, by omega, hk2, hl4, hval, hin⟩
                case isFalse hval => exact Or.inl hin
              case isFalse hl4 => exact Or.inl hin
            case isFalse hk2 =>
              rcases ih _ _ _ h with h1 | ⟨k, hik, hk4, hb2', hb4, hval, hr⟩
              · exact Or.inl h1
              · exact Or.inr ⟨k, by omega, hk4, hb2', hb4, hval, hr⟩
    case isFalse hi => exact Or.inl (Option.some.inj h).symm

theorem clamp_loop_length {f : ℕ} {opts : List ℕ} {i : ℕ} {r : List ℕ}
    (h : clamp_loop f opts i = some r) : r.length = opts.length := by
  rcases clamp_loop_spec f opts i r h with rfl | ⟨k, -, -, -, -, -, rfl⟩
  · rfl
  · simp
theorem clamp_loop_idem : ∀ (f : ℕ) (opts : List ℕ) (i : ℕ) (r : List ℕ),
    clamp_loop f opts i = some r → clamp_loop f r i = some r := by
  intro f
  induction f with
  | zero => intro opts i r h; simp [clamp_loop] at h
  | succ f ih =>
    intro opts i r h
    simp only [clamp_loop] at h
    split at h
    case isFalse hi =>
      obtain rfl : opts = r := Option.some.inj h
      simp only [clamp_loop]
      rw [if_neg hi]
    case isTrue hi =>
      split at h
      case isTrue hk01 =>
        have hmain := ih _ _ _ h
        rcases clamp_loop_spec _ _ _ _ h with rfl | ⟨k, hik, hk4, hb2, hb4, hval, hr⟩
        · simp only [clamp_loop]
          rw [if_pos hi, if_pos hk01]
          exact hmain
        · have hlen : r.length = opts.length := by rw [hr]; simp
          have hri : rd r i = rd opts i := by
            rw [hr, rd_set_ne (by omega), rd_set_ne (by omega)]
          simp only [clamp_loop]
          rw [hlen, if_pos hi, hri, if_pos hk01]
          exact hmain
      case isFalse hk01 =>
        split at h
        case isTrue hb1 =>
          obtain rfl : opts = r := Option.some.inj h
          simp only [clamp_loop]
          rw [if_pos hi, if_neg hk01, if_pos hb1]
        case isFalse hb1 =>
          split at h
          case isTrue hb2 =>
            obtain rfl : opts = r := Option.some.inj h
            simp only [clamp_loop]
            rw [if_pos hi, if_neg hk01, if_neg hb1, if_pos hb2]
          case isFalse hb2 =>
            split at h
            case isTrue hk2 =>
              have hin := (Option.some.inj h).symm
              split at hin
              case isTrue hl4 =>
                split at hin
                case isTrue hval =>
                  have hbound : i + 4 ≤ opts.length := by omega
                  have hlen : r.length = opts.length := by rw [hin]; simp
                  have hri : rd r i = rd opts i := by
                    rw [hin, rd_set_ne (by omega), rd_set_ne (by omega)]
                  have hri1 : rd r (i + 1) = rd opts (i + 1) := by
                    rw [hin, rd_set_ne (by omega), rd_set_ne (by omega)]
                  have hri2 : rd r (i + 2) = DEFAULT_MSS_CLAMP / 256 := by
                    rw [hin, rd_set_ne (by omega), rd_set_eq (by omega)]
                  have hri3 : rd r (i + 3) = DEFAULT_MSS_CLAMP % 256 := by
                    rw [hin, rd_set_eq (by simp; omega)]
                  simp only [clamp_loop]
                  rw [hlen, if_pos hi, hri, if_neg hk01, if_neg hb1, hri1, if_neg hb2,
                    if_pos hk2, if_pos hl4, hri2, hri3,
                    if_neg (by norm_num [DEFAULT_MSS_CLAMP])]
                case isFalse hval =>
                  obtain rfl : opts = r := hin.symm
                  simp only [clamp_loop]
                  rw [if_pos hi, if_neg hk01, if_neg hb1, if_neg hb2, if_pos hk2,
                    if_pos hl4, if_neg hval]
              case isFalse hl4 =>
                obtain rfl : opts = r := hin.symm
                simp only [clamp_loop]
                rw [if_pos hi, if_neg hk01, if_neg hb1, if_neg hb2, if_pos hk2, if_neg hl4]
            case isFalse hk2 =>
              have hmain := ih _ _ _ h
              rcases clamp_loop_spec _ _ _ _ h with rfl | ⟨k, hik, hk4, hbk2, hbk4, hval, hr⟩
              · simp only [clamp_loop]
                rw [if_pos hi, if_neg hk01, if_neg hb1, if_neg hb2, if_neg hk2]
                exact hmain
              · have hlen : r.length = opts.length := by rw [hr]; simp
                have hri : rd r i = rd opts i := by
                  rw [hr, rd_set_ne (by omega), rd_set_ne (by omega)]
                have hri1 : rd r (i + 1) = rd opts (i + 1) := by
                  rw [hr, rd_set_ne (by omega), rd_set_ne (by omega)]
                simp only [clamp_loop]
                rw [hlen, if_pos hi, hri, if_neg hk01, if_neg hb1, hri1, if_neg hb2,
                  if_neg hk2]
                exact hmain
theorem rd_append_left {l1 l2 : List ℕ} {j : ℕ} (h : j < l1.length) :
    rd (l1 ++ l2) j = rd l1 j :=
  List.getD_append l1 l2 0 j h

theorem rd_append_right {l1 l2 : List ℕ} {j : ℕ} (h : l1.length ≤ j) :
    rd (l1 ++ l2) j = rd l2 (j - l1.length) :=
  List.getD_append_right l1 l2 0 j h

theorem rd_of_getElem? {l : List ℕ} {j : ℕ} : rd l j = l[j]?.getD 0 :=
  List.getD_eq_getElem?_getD l j 0

theorem rd_slice {buf : List ℕ} {d j : ℕ} (hj : 20 + j < d) :
    rd ((buf.take d).drop 20) j = rd buf (20 + j) := by
  rw [rd_of_getElem?, rd_of_getElem?, List.getElem?_drop, List.getElem?_take, if_pos hj]

theorem slice_length {buf : List ℕ} {d : ℕ} (h20 : 20 ≤ d) (hd : d ≤ buf.length) :
    ((buf.take d).drop 20).length = d - 20 := by
  rw [List.length_drop, List.length_take]
  omega

theorem take_mid_drop (buf : List ℕ) (d : ℕ) (h20 : 20 ≤ d) :
    buf.take 20 ++ (buf.take d).drop 20 ++ buf.drop d = buf := by
  have h1 : buf.take 20 = (buf.take d).take 20 := by
    rw [List.take_take, min_eq_left h20]
  rw [h1, List.take_append_drop, List.take_append_drop]

theorem clamp_mss_raw_length {buf out : List ℕ} (h : clamp_mss_raw buf = some out) :
    out.length = buf.length := by
  simp only [clamp_mss_raw] at h
  split at h
  · exact congrArg List.length (Option.some.inj h).symm
  · split at h
    · exact congrArg List.length (Option.some.inj h).symm
    · next hguard =>
      split at h
      · exact absurd h (by simp)
      · next opts2 heq =>
        obtain rfl := Option.some.inj h
        have hlen2 := clamp_loop_length heq
        push_neg at hguard
        simp only [List.length_append, List.length_take, List.length_drop, hlen2,
          slice_length hguard.1 hguard.2]
        omega
theorem rd_take {buf : List ℕ} {m j : ℕ} (h : j < m) : rd (buf.take m) j = rd buf j := by
  rw [rd_of_getElem?, rd_of_getElem?, List.getElem?_take, if_pos h]

theorem mid_set_assemble (buf : List ℕ) (d : ℕ) (mid : List ℕ) (j v : ℕ)
    (h20 : 20 ≤ d) (hd : d ≤ buf.length) (hmid : mid.length = d - 20) (hj : j < d - 20) :
    (buf.take 20 ++ mid ++ buf.drop d).set (20 + j) v =
      buf.take 20 ++ mid.set j v ++ buf.drop d := by
  have htk : (buf.take 20).length = 20 := by rw [List.length_take]; omega
  have hpre : (buf.take 20 ++ mid).length = d := by
    rw [List.length_append, htk]; omega
  rw [List.set_append_left _ _ (by omega), List.set_append_right _ _ (by omega), htk]
  have hidx : 20 + j - 20 = j := by omega
  rw [hidx]

/-- Claim C8: MSS clamping is idempotent.  Whenever `clamp_mss_raw` terminates
it is a fixed point of itself, and a diverging first application diverges
identically on re-application, so applying the clamp twice always yields
exactly the result of applying it once. -/
theorem clamp_mss_raw_idempotent (buf : List ℕ) :
    (clamp_mss_raw buf).bind clamp_mss_raw = clamp_mss_raw buf := by
  cases h : clamp_mss_raw buf with
  | none => rfl
  | some out =>
    show clamp_mss_raw out = some out
    simp only [clamp_mss_raw] at h
    split at h
    case isTrue hl =>
      obtain rfl := Option.some.inj h
      simp only [clamp_mss_raw]
      rw [if_pos hl]
    case isFalse hl =>
      split at h
      case isTrue hg =>
        obtain rfl := Option.some.inj h
        simp only [clamp_mss_raw]
        rw [if_neg hl, if_pos hg]
      case isFalse hg =>
        split at h
        case h_1 => exact absurd h (by simp)
        case h_2 opts2 heq =>
          obtain rfl := Option.some.inj h
          push_neg at hg
          obtain ⟨hg1, hg2⟩ := hg
          have hopts_len : ((buf.take (tcp_doff buf)).drop 20).length = tcp_doff buf - 20 :=
            slice_length hg1 hg2
          have hlen2 : opts2.length = tcp_doff buf - 20 := by
            rw [clamp_loop_length heq, hopts_len]
          have htk20 : (buf.take 20).length = 20 := by
            rw [List.length_take]; omega
          have hpre_len : (buf.take 20 ++ opts2).length = tcp_doff buf := by
            rw [List.length_append, htk20]; omega
          have hout_len : (buf.take 20 ++ opts2 ++ buf.drop (tcp_doff buf)).length
              = buf.length := by
            rw [List.length_append, hpre_len, List.length_drop]; omega
          have hout12 : rd (buf.take 20 ++ opts2 ++ buf.drop (tcp_doff buf)) 12
              = rd buf 12 := by
            rw [rd_append_left (by rw [hpre_len]; omega), rd_append_left (by omega),
              rd_take (by omega)]
          have hdoff_out : tcp_doff (buf.take 20 ++ opts2 ++ buf.drop (tcp_doff buf))
              = tcp_doff buf :=
            congrArg (fun x => x / 16 * 4) hout12
          have houts : ((buf.take 20 ++ opts2 ++ buf.drop (tcp_doff buf)).take
                (tcp_doff buf)).drop 20 = opts2 := by
            rw [List.take_left' hpre_len, List.drop_left' htk20]
          have htake20 : (buf.take 20 ++ opts2 ++ buf.drop (tcp_doff buf)).take 20
              = buf.take 20 := by
            rw [List.take_append_of_le_length (by rw [hpre_len]; omega),
              List.take_append_of_le_length (by omega), List.take_take,
              min_eq_left (by omega)]
          have hdrop : (buf.take 20 ++ opts2 ++ buf.drop (tcp_doff buf)).drop
              (tcp_doff buf) = buf.drop (tcp_doff buf) :=
            List.drop_left' hpre_len
          have heq2 : clamp_loop (opts2.length + 1) opts2 0 = some opts2 := by
            have hmain := clamp_loop_idem _ _ _ _ heq
            rwa [← clamp_loop_length heq] at hmain
          simp only [clamp_mss_raw]
          rw [if_neg (by rw [hout_len]; exact hl),
            if_neg (by rw [hdoff_out, hout_len]; push_neg; exact ⟨hg1, hg2⟩),
            hdoff_out, houts, heq2, htake20, hdrop]
/-- Claim C10 (amended): whenever the option walk of `clamp_mss_raw`
terminates, the result has the same length as the input and is either exactly
the input (in particular for buffers shorter than 20 bytes, data offsets below
20 or beyond the buffer, truncated TLVs, and MSS values within the clamp) or
the input with precisely the two value bytes of a well-formed MSS option
(kind 2, length 4) inside the options region `[20, data_offset*4)` overwritten
with 1280 in network byte order.  The walk is not total: it diverges exactly
when it reaches an option of kind outside {0, 1, 2} whose length byte is 0. -/
theorem clamp_mss_raw_frame (buf out : List ℕ) (h : clamp_mss_raw buf = some out) :
    out.length = buf.length ∧
    (out = buf ∨ ∃ k, 20 + k + 4 ≤ tcp_doff buf ∧ tcp_doff buf ≤ buf.length ∧
       rd buf (20 + k) = 2 ∧ rd buf (20 + k + 1) = 4 ∧
       DEFAULT_MSS_CLAMP < rd buf (20 + k + 2) * 256 + rd buf (20 + k + 3) ∧
       out = (buf.set (20 + k + 2) (DEFAULT_MSS_CLAMP / 256)).set (20 + k + 3)
         (DEFAULT_MSS_CLAMP % 256)) := by
  refine ⟨clamp_mss_raw_length h, ?_⟩
  simp only [clamp_mss_raw] at h
  split at h
  · exact Or.inl (Option.some.inj h).symm
  · split at h
    · exact Or.inl (Option.some.inj h).symm
    · next hg =>
      split at h
      case h_1 => exact absurd h (by simp)
      case h_2 opts2 heq =>
        obtain rfl := Option.some.inj h
        push_neg at hg
        obtain ⟨hg1, hg2⟩ := hg
        have hopts_len := slice_length hg1 hg2
        rcases clamp_loop_spec _ _ _ _ heq with rfl | ⟨k, -, hk4, hb2, hb4, hval, rfl⟩
        · exact Or.inl (take_mid_drop buf _ hg1)
        · right
          rw [hopts_len] at hk4
          have hkd0 : 20 + k < tcp_doff buf := by omega
          have hkd1 : 20 + (k + 1) < tcp_doff buf := by omega
          have hkd2 : 20 + (k + 2) < tcp_doff buf := by omega
          have hkd3 : 20 + (k + 3) < tcp_doff buf := by omega
          refine ⟨k, by omega, hg2, ?_, ?_, ?_, ?_⟩
          · rw [← rd_slice hkd0]
            exact hb2
          · rw [show (20 : ℕ) + k + 1 = 20 + (k + 1) by omega, ← rd_slice hkd1]
            exact hb4
          · rw [show (20 : ℕ) + k + 2 = 20 + (k + 2) by omega,
              show (20 : ℕ) + k + 3 = 20 + (k + 3) by omega,
              ← rd_slice hkd2, ← rd_slice hkd3]
            exact hval
          · have hset_len : (((buf.take (tcp_doff buf)).drop 20).set (k + 2)
                (DEFAULT_MSS_CLAMP / 256)).length = tcp_doff buf - 20 := by
              rw [List.length_set, hopts_len]
            have e1 := mid_set_assemble buf (tcp_doff buf) ((buf.take (tcp_doff buf)).drop 20)
              (k + 2) (DEFAULT_MSS_CLAMP / 256) hg1 hg2 hopts_len (by omega)
            have e2 := mid_set_assemble buf (tcp_doff buf)
              (((buf.take (tcp_doff buf)).drop 20).set (k + 2) (DEFAULT_MSS_CLAMP / 256))
              (k + 3) (DEFAULT_MSS_CLAMP % 256) hg1 hg2 hset_len (by omega)
            have e0 := take_mid_drop buf (tcp_doff buf) hg1
            rw [show (20 : ℕ) + k + 2 = 20 + (k + 2) by omega,
              show (20 : ℕ) + k + 3 = 20 + (k + 3) by omega,
              ← e2, ← e1, e0]

theorem clamp_find_pair : ∀ (f : ℕ) (opts : List ℕ) (i : ℕ) (r : List ℕ),
    clamp_loop f opts i = some r → ∀ g : ℕ,
      spec_find_mss_loop g r i = (spec_find_mss_loop g opts i).map
          (fun kv => (kv.1, if DEFAULT_MSS_CLAMP < kv.2 then DEFAULT_MSS_CLAMP else kv.2)) ∧
      ∀ k v, spec_find_mss_loop g opts i = some (k, v) →
        (v ≤ DEFAULT_MSS_CLAMP → r = opts) ∧
        (DEFAULT_MSS_CLAMP < v →
          r = (opts.set (k + 2) (DEFAULT_MSS_CLAMP / 256)).set (k + 3)
            (DEFAULT_MSS_CLAMP % 256)) := by
  intro f
  induction f with
  | zero => intro opts i r h; simp [clamp_loop] at h
  | succ f ih =>
    intro opts i r h g
    cases g with
    | zero =>
      refine ⟨by simp [spec_find_mss_loop], ?_⟩
      intro k v hkv
      simp [spec_find_mss_loop] at hkv
    | succ g =>
      simp only [clamp_loop] at h
      split at h
      case isFalse hi =>
        obtain rfl : opts = r := Option.some.inj h
        have hs : spec_find_mss_loop (g + 1) opts i = none := by
          simp only [spec_find_mss_loop]
          rw [if_neg hi]
        exact ⟨by rw [hs]; rfl, fun k v hkv => absurd (hs ▸ hkv) (by simp)⟩
      case isTrue hi =>
        split at h
        case isTrue hk01 =>
          have IH := ih _ _ _ h g
          have hlen : r.length = opts.length := clamp_loop_length h
          have hri : rd r i = rd opts i := by
            rcases clamp_loop_spec _ _ _ _ h with rfl | ⟨k, hk, -, -, -, -, rfl⟩
            · rfl
            · rw [rd_set_ne (by omega), rd_set_ne (by omega)]
          have hsr : spec_find_mss_loop (g + 1) r i = spec_find_mss_loop g r (i + 1) := by
            simp only [spec_find_mss_loop]
            rw [hlen, if_pos hi, hri, if_pos hk01]
          have hso : spec_find_mss_loop (g + 1) opts i = spec_find_mss_loop g opts (i + 1) := by
            simp only [spec_find_mss_loop]
            rw [if_pos hi, if_pos hk01]
          rw [hsr, hso]
          exact IH
        case isFalse hk01 =>
          split at h
          case isTrue hb1 =>
            obtain rfl : opts = r := Option.some.inj h
            have hs : spec_find_mss_loop (g + 1) opts i = none := by
              simp only [spec_find_mss_loop]
              rw [if_pos hi, if_neg hk01, if_pos hb1]
            exact ⟨by rw [hs]; rfl, fun k v hkv => absurd (hs ▸ hkv) (by simp)⟩
          case isFalse hb1 =>
            split at h
            case isTrue hb2 =>
              obtain rfl : opts = r := Option.some.inj h
              have hs : spec_find_mss_loop (g + 1) opts i = none := by
                simp only [spec_find_mss_loop]
                rw [if_pos hi, if_neg hk01, if_neg hb1, if_pos hb2]
              exact ⟨by rw [hs]; rfl, fun k v hkv => absurd (hs ▸ hkv) (by simp)⟩
            case isFalse hb2 =>
              split at h
              case isTrue hk2 =>
                have hin := (Option.some.inj h).symm
                split at hin
                case isTrue hl4 =>
                  split at hin
                  case isTrue hval =>
                    have hlen : r.length = opts.length := by rw [hin]; simp
                    have hbound : i + 4 ≤ opts.length := by omega
                    have hri : rd r i = rd opts i := by
                      rw [hin, rd_set_ne (by omega), rd_set_ne (by omega)]
                    have hri1 : rd r (i + 1) = rd opts (i + 1) := by
                      rw [hin, rd_set_ne (by omega), rd_set_ne (by omega)]
                    have hri2 : rd r (i + 2) = DEFAULT_MSS_CLAMP / 256 := by
                      rw [hin, rd_set_ne (by omega), rd_set_eq (by omega)]
                    have hri3 : rd r (i + 3) = DEFAULT_MSS_CLAMP % 256 := by
                      rw [hin, rd_set_eq (by simp only [List.length_set]; omega)]
                    have hso : spec_find_mss_loop (g + 1) opts i
                        = some (i, rd opts (i + 2) * 256 + rd opts (i + 3)) := by
                      simp only [spec_find_mss_loop]
                      rw [if_pos hi, if_neg hk01, if_neg hb1, if_neg hb2, if_pos hk2,
                        if_pos hl4]
                    have hsr : spec_find_mss_loop (g + 1) r i = some (i, DEFAULT_MSS_CLAMP) := by
                      simp only [spec_find_mss_loop]
                      rw [hlen, if_pos hi, hri, if_neg hk01, if_neg hb1, hri1, if_neg hb2,
                        if_pos hk2, if_pos hl4, hri2, hri3]
                      norm_num [DEFAULT_MSS_CLAMP]
                    constructor
                    · rw [hsr, hso]
                      simp only [Option.map_some']
                      rw [if_pos hval]
                    · intro k v hkv
                      rw [hso] at hkv
                      have hpair := Option.some.inj hkv
                      rw [Prod.mk.injEq] at hpair
                      obtain ⟨rfl, rfl⟩ := hpair
                      exact ⟨fun hle => absurd hval (by omega), fun _ => hin⟩
                  case isFalse hval =>
                    obtain rfl : opts = r := hin.symm
                    have hso : spec_find_mss_loop (g + 1) opts i
                        = some (i, rd opts (i + 2) * 256 + rd opts (i + 3)) := by
                      simp only [spec_find_mss_loop]
                      rw [if_pos hi, if_neg hk01, if_neg hb1, if_neg hb2, if_pos hk2,
                        if_pos hl4]
                    constructor
                    · rw [hso]
                      simp only [Option.map_some']
                      rw [if_neg hval]
                    · intro k v hkv
                      rw [hso] at hkv
                      have hpair := Option.some.inj hkv
                      rw [Prod.mk.injEq] at hpair
                      obtain ⟨rfl, rfl⟩ := hpair
                      exact ⟨fun _ => rfl, fun hgt => absurd hgt hval⟩
                case isFalse hl4 =>
                  obtain rfl : opts = r := hin.symm
                  have hs : spec_find_mss_loop (g + 1) opts i = none := by
                    simp only [spec_find_mss_loop]
                    rw [if_pos hi, if_neg hk01, if_neg hb1, if_neg hb2, if_pos hk2,
                      if_neg hl4]
                  exact ⟨by rw [hs]; rfl, fun k v hkv => absurd (hs ▸ hkv) (by simp)⟩
              case isFalse hk2 =>
                by_cases hlen0 : rd opts (i + 1) = 0
                · rw [hlen0, Nat.add_zero] at h
                  exact ih _ _ _ h (g + 1)
                · by_cases hlen1 : rd opts (i + 1) = 1
                  · rw [hlen1] at h
                    have hlen : r.length = opts.length := clamp_loop_length h
                    have hread : rd r i = rd opts i ∧ rd r (i + 1) = rd opts (i + 1) := by
                      rcases clamp_loop_spec _ _ _ _ h with rfl | ⟨k, hk, -, -, -, -, rfl⟩
                      · exact ⟨rfl, rfl⟩
                      · exact ⟨by rw [rd_set_ne (by omega), rd_set_ne (by omega)],
                          by rw [rd_set_ne (by omega), rd_set_ne (by omega)]⟩
                    have hso : spec_find_mss_loop (g + 1) opts i = none := by
                      simp only [spec_find_mss_loop]
                      rw [if_pos hi, if_neg hk01, if_neg hb1, if_neg hb2, if_neg hk2,
                        if_pos (by omega)]
                    have hsr : spec_find_mss_loop (g + 1) r i = none := by
                      simp only [spec_find_mss_loop]
                      rw [hlen, if_pos hi, hread.1, if_neg hk01, if_neg hb1, hread.2,
                        if_neg hb2, if_neg hk2, if_pos (by omega)]
                    exact ⟨by rw [hsr, hso]; rfl,
                      fun k v hkv => absurd (hso ▸ hkv) (by simp)⟩
                  · have IH := ih _ _ _ h g
                    have hlen : r.length = opts.length := clamp_loop_length h
                    have hread : rd r i = rd opts i ∧ rd r (i + 1) = rd opts (i + 1) := by
                      rcases clamp_loop_spec _ _ _ _ h with rfl | ⟨k, hk, -, -, -, -, rfl⟩
                      · exact ⟨rfl, rfl⟩
                      · exact ⟨by rw [rd_set_ne (by omega), rd_set_ne (by omega)],
                          by rw [rd_set_ne (by omega), rd_set_ne (by omega)]⟩
                    have hso : spec_find_mss_loop (g + 1) opts i
                        = spec_find_mss_loop g opts (i + rd opts (i + 1)) := by
                      simp only [spec_find_mss_loop]
                      rw [if_pos hi, if_neg hk01, if_neg hb1, if_neg hb2, if_neg hk2,
                        if_neg (by omega)]
                    have hsr : spec_find_mss_loop (g + 1) r i
                        = spec_find_mss_loop g r (i + rd opts (i + 1)) := by
                      simp only [spec_find_mss_loop]
                      rw [hlen, if_pos hi, hread.1, if_neg hk01, if_neg hb1, hread.2,
                        if_neg hb2, if_neg hk2, if_neg (by omega)]
                    rw [hsr, hso]
                    exact IH

theorem rd_ge_length {l : List ℕ} {j : ℕ} (h : l.length ≤ j) : rd l j = 0 := by
  rw [rd_of_getElem?, List.getElem?_eq_none h]
  rfl

theorem rd_slice_gen {l : List ℕ} {D T j : ℕ} (h : D + j < T) :
    rd ((l.take T).drop D) j = rd l (D + j) := by
  rw [rd_of_getElem?, rd_of_getElem?, List.getElem?_drop, List.getElem?_take, if_pos h]

theorem slice_length_gen {l : List ℕ} {D T : ℕ} (hT : T ≤ l.length) :
    ((l.take T).drop D).length = T - D := by
  rw [List.length_drop, List.length_take]
  omega

theorem clamp_rd_keep {s o : List ℕ} (h : clamp_mss_raw s = some o) {j : ℕ}
    (hj : j < 20) : rd o j = rd s j := by
  rcases (clamp_mss_raw_frame s o h).2 with rfl | ⟨k, -, -, -, -, -, rfl⟩
  · rfl
  · rw [rd_set_ne (by omega), rd_set_ne (by omega)]

theorem tcp_fill_length (src dst seg : List ℕ) :
    (tcp_fill_checksum src dst seg).length = seg.length := by
  simp only [tcp_fill_checksum, List.length_set]

theorem tcp_fill_rd (src dst seg : List ℕ) {j : ℕ} (h16 : j ≠ 16) (h17 : j ≠ 17) :
    rd (tcp_fill_checksum src dst seg) j = rd seg j := by
  simp only [tcp_fill_checksum]
  rw [rd_set_ne h17, rd_set_ne h16]

theorem ipv4_fill_length (buf : List ℕ) : (ipv4_fill_checksum buf).length = buf.length := by
  simp only [ipv4_fill_checksum, List.length_set]

theorem ipv4_fill_rd (buf : List ℕ) {j : ℕ} (h10 : j ≠ 10) (h11 : j ≠ 11) :
    rd (ipv4_fill_checksum buf) j = rd buf j := by
  simp only [ipv4_fill_checksum]
  rw [rd_set_ne h11, rd_set_ne h10]

theorem spec_find_loop_bounds : ∀ (g : ℕ) (opts : List ℕ) (i k v : ℕ),
    spec_find_mss_loop g opts i = some (k, v) →
    i ≤ k ∧ k + 4 ≤ opts.length ∧ rd opts k = 2 ∧ rd opts (k + 1) = 4 ∧
      v = rd opts (k + 2) * 256 + rd opts (k + 3) := by
  intro g
  induction g with
  | zero => intro opts i k v h; simp [spec_find_mss_loop] at h
  | succ g ih =>
    intro opts i k v h
    simp only [spec_find_mss_loop] at h
    split at h
    case isFalse => exact absurd h (by simp)
    case isTrue hi =>
      split at h
      case isTrue hk01 =>
        have hrec := ih _ _ _ _ h
        exact ⟨by omega, hrec.2⟩
      case isFalse hk01 =>
        split at h
        case isTrue => exact absurd h (by simp)
        case isFalse hb1 =>
          split at h
          case isTrue => exact absurd h (by simp)
          case isFalse hb2 =>
            split at h
            case isTrue hk2 =>
              split at h
              case isTrue hl4 =>
                have hp := Option.some.inj h
                rw [Prod.mk.injEq] at hp
                obtain ⟨rfl, rfl⟩ := hp
                exact ⟨le_refl _, by omega, hk2, hl4, rfl⟩
              case isFalse => exact absurd h (by simp)
            case isFalse hk2 =>
              split at h
              case isTrue => exact absurd h (by simp)
              case isFalse hl2 =>
                have hrec := ih _ _ _ _ h
                exact ⟨by omega, hrec.2⟩

theorem spec_find_mss_bounds {seg : List ℕ} {k v : ℕ}
    (h : spec_find_mss seg = some (k, v)) :
    20 ≤ tcp_doff seg ∧ tcp_doff seg ≤ seg.length ∧ 20 + k + 4 ≤ tcp_doff seg := by
  simp only [spec_find_mss] at h
  split at h
  · exact absurd h (by simp)
  · split at h
    · exact absurd h (by simp)
    · next h1 h2 =>
      push_neg at h2
      have hb := spec_find_loop_bounds _ _ _ _ _ h
      have hol : ((seg.take (tcp_doff seg)).drop 20).length = tcp_doff seg - 20 :=
        slice_length h2.1 h2.2
      rw [hol] at hb
      exact ⟨h2.1, h2.2, by omega⟩

theorem skip_loop_ge : ∀ (f : ℕ) (buf : List ℕ) (nh off p off2 : ℕ),
    skip_loop buf f nh off = some (p, off2) → off ≤ off2 := by
  intro f
  induction f with
  | zero => intro buf nh off p off2 h; simp [skip_loop] at h
  | succ f ih =>
    intro buf nh off p off2 h
    simp only [skip_loop] at h
    split at h
    · have hp := Option.some.inj h
      rw [Prod.mk.injEq] at hp
      omega
    · split at h
      · split at h
        · exact absurd h (by simp)
        · have := ih _ _ _ _ _ h
          split at this <;> omega
      · have hp := Option.some.inj h
        rw [Prod.mk.injEq] at hp
        omega

theorem skip_loop_congr : ∀ (f : ℕ) (b1 b2 : List ℕ) (nh off p off2 : ℕ),
    skip_loop b1 f nh off = some (p, off2) → b1.length = b2.length →
    (∀ j, j < off2 → rd b1 j = rd b2 j) → skip_loop b2 f nh off = some (p, off2) := by
  intro f
  induction f with
  | zero => intro b1 b2 nh off p off2 h _ _; simp [skip_loop] at h
  | succ f ih =>
    intro b1 b2 nh off p off2 h hlen hrd
    simp only [skip_loop] at h ⊢
    split at h
    case isTrue h6 => rw [if_pos h6]; exact h
    case isFalse h6 =>
      split at h
      case isTrue hext =>
        split at h
        case isTrue htr => exact absurd h (by simp)
        case isFalse htr =>
          have hge := skip_loop_ge f b1 (rd b1 off)
            (off + (if nh = 44 then 8 else (rd b1 (off + 1) + 1) * 8)) p off2 h
          have h8 : 8 ≤ (if nh = 44 then 8 else (rd b1 (off + 1) + 1) * 8) := by
            split <;> omega
          have hread0 : rd b1 off = rd b2 off := hrd _ (by omega)
          have hread1 : rd b1 (off + 1) = rd b2 (off + 1) := hrd _ (by omega)
          rw [if_neg h6, if_pos hext, if_neg (show ¬off + 2 > b2.length by omega),
            ← hread0, ← hread1]
          exact ih b1 b2 (rd b1 off)
            (off + (if nh = 44 then 8 else (rd b1 (off + 1) + 1) * 8)) p off2 h hlen hrd
      case isFalse hext => rw [if_neg h6, if_neg hext]; exact h

theorem getElem?_congr_of_rd {s1 s2 : List ℕ} {j : ℕ} (hlen : s1.length = s2.length)
    (hj : rd s1 j = rd s2 j) : s1[j]? = s2[j]? := by
  by_cases h : j < s1.length
  · have h2 : j < s2.length := hlen ▸ h
    have e1 : rd s1 j = s1[j] := by
      rw [rd_of_getElem?, List.getElem?_eq_getElem h]
      rfl
    have e2 : rd s2 j = s2[j] := by
      rw [rd_of_getElem?, List.getElem?_eq_getElem h2]
      rfl
    rw [List.getElem?_eq_getElem h, List.getElem?_eq_getElem h2, ← e1, ← e2, hj]
  · rw [List.getElem?_eq_none (by omega), List.getElem?_eq_none (by omega)]

theorem spec_find_congr (s1 s2 : List ℕ) (hlen : s1.length = s2.length)
    (h12 : rd s1 12 = rd s2 12) (hge : ∀ j, 20 ≤ j → rd s1 j = rd s2 j) :
    spec_find_mss s1 = spec_find_mss s2 := by
  have hdoff : tcp_doff s1 = tcp_doff s2 := congrArg (fun x => x / 16 * 4) h12
  have hopts : (s1.take (tcp_doff s2)).drop 20 = (s2.take (tcp_doff s2)).drop 20 := by
    apply List.ext_getElem?
    intro p
    rw [List.getElem?_drop, List.getElem?_drop, List.getElem?_take, List.getElem?_take]
    by_cases hp : 20 + p < tcp_doff s2
    · rw [if_pos hp, if_pos hp]
      exact getElem?_congr_of_rd hlen (hge _ (by omega))
    · rw [if_neg hp, if_neg hp]
  simp only [spec_find_mss]
  rw [hlen, hdoff, hopts]

theorem clamp_mss_raw_cases (buf out : List ℕ) (h : clamp_mss_raw buf = some out) :
    (out = buf ∧ (buf.length < 20 ∨ tcp_doff buf < 20 ∨ tcp_doff buf > buf.length)) ∨
    (20 ≤ tcp_doff buf ∧ tcp_doff buf ≤ buf.length ∧ 20 ≤ buf.length ∧
      ∃ opts2, clamp_loop (((buf.take (tcp_doff buf)).drop 20).length + 1)
          ((buf.take (tcp_doff buf)).drop 20) 0 = some opts2 ∧
        out = buf.take 20 ++ opts2 ++ buf.drop (tcp_doff buf)) := by
  simp only [clamp_mss_raw] at h
  split at h
  case isTrue hl => exact Or.inl ⟨(Option.some.inj h).symm, Or.inl hl⟩
  case isFalse hl =>
    split at h
    case isTrue hg => exact Or.inl ⟨(Option.some.inj h).symm, Or.inr hg⟩
    case isFalse hg =>
      split at h
      case h_1 => exact absurd h (by simp)
      case h_2 opts2 heq =>
        push_neg at hg
        exact Or.inr ⟨hg.1, hg.2, by omega, opts2, heq, (Option.some.inj h).symm⟩

theorem spec_find_none_of_guard {seg : List ℕ}
    (hguard : seg.length < 20 ∨ tcp_doff seg < 20 ∨ tcp_doff seg > seg.length) :
    spec_find_mss seg = none := by
  by_cases h1 : seg.length < 20
  · simp only [spec_find_mss]
    rw [if_pos h1]
  · simp only [spec_find_mss]
    rw [if_neg h1, if_pos (by omega)]

theorem clamp_spec_find (seg out : List ℕ) (h : clamp_mss_raw seg = some out) :
    spec_find_mss out = (spec_find_mss seg).map
        (fun kv => (kv.1, if DEFAULT_MSS_CLAMP < kv.2 then DEFAULT_MSS_CLAMP else kv.2)) ∧
    (∀ k v, spec_find_mss seg = some (k, v) → v ≤ DEFAULT_MSS_CLAMP → out = seg) ∧
    (∀ k v, spec_find_mss seg = some (k, v) → DEFAULT_MSS_CLAMP < v →
      out = (seg.set (20 + k + 2) (DEFAULT_MSS_CLAMP / 256)).set (20 + k + 3)
        (DEFAULT_MSS_CLAMP % 256)) := by
  rcases clamp_mss_raw_cases seg out h with ⟨rfl, hguard⟩ | ⟨hg1, hg2, hl20, opts2, heq, rfl⟩
  · rw [spec_find_none_of_guard hguard]
    exact ⟨rfl, fun k v hkv => absurd hkv (by simp [spec_find_none_of_guard hguard]),
      fun k v hkv => absurd hkv (by simp [spec_find_none_of_guard hguard])⟩
  · have hopts_len : ((seg.take (tcp_doff seg)).drop 20).length = tcp_doff seg - 20 :=
      slice_length hg1 hg2
    have hlen2 : opts2.length = tcp_doff seg - 20 := by
      rw [clamp_loop_length heq, hopts_len]
    have htk20 : (seg.take 20).length = 20 := by rw [List.length_take]; omega
    have hpre_len : (seg.take 20 ++ opts2).length = tcp_doff seg := by
      rw [List.length_append, htk20]; omega
    have hout_len : (seg.take 20 ++ opts2 ++ seg.drop (tcp_doff seg)).length = seg.length := by
      rw [List.length_append, hpre_len, List.length_drop]; omega
    have hout12 : rd (seg.take 20 ++ opts2 ++ seg.drop (tcp_doff seg)) 12 = rd seg 12 := by
      rw [rd_append_left (by rw [hpre_len]; omega), rd_append_left (by omega),
        rd_take (by omega)]
    have hdoff_out : tcp_doff (seg.take 20 ++ opts2 ++ seg.drop (tcp_doff seg))
        = tcp_doff seg := congrArg (fun x => x / 16 * 4) hout12
    have houts : ((seg.take 20 ++ opts2 ++ seg.drop (tcp_doff seg)).take
          (tcp_doff seg)).drop 20 = opts2 := by
      rw [List.take_left' hpre_len, List.drop_left' htk20]
    have hspec_out : spec_find_mss (seg.take 20 ++ opts2 ++ seg.drop (tcp_doff seg))
        = spec_find_mss_loop (opts2.length + 1) opts2 0 := by
      simp only [spec_find_mss]
      rw [if_neg (by omega), hdoff_out, if_neg (by push_neg; omega), houts]
    have hspec_seg : spec_find_mss seg
        = spec_find_mss_loop (opts2.length + 1) ((seg.take (tcp_doff seg)).drop 20) 0 := by
      simp only [spec_find_mss]
      rw [if_neg (by omega), if_neg (by push_neg; omega), hopts_len, ← hlen2]
    have hpair := clamp_find_pair _ _ _ _ heq (opts2.length + 1)
    refine ⟨?_, ?_, ?_⟩
    · rw [hspec_out, hspec_seg]
      exact hpair.1
    · intro k v hkv hle
      rw [hspec_seg] at hkv
      have hfix := (hpair.2 k v hkv).1 hle
      rw [hfix]
      exact take_mid_drop seg _ hg1
    · intro k v hkv hgt
      rw [hspec_seg] at hkv
      have hfix := (hpair.2 k v hkv).2 hgt
      have hb := spec_find_loop_bounds _ _ _ _ _ hkv
      rw [hopts_len, ← hlen2] at hb
      have hset_len : (((seg.take (tcp_doff seg)).drop 20).set (k + 2)
          (DEFAULT_MSS_CLAMP / 256)).length = tcp_doff seg - 20 := by
        rw [List.length_set, hopts_len]
      have e1 := mid_set_assemble seg (tcp_doff seg) ((seg.take (tcp_doff seg)).drop 20)
        (k + 2) (DEFAULT_MSS_CLAMP / 256) hg1 hg2 hopts_len (by omega)
      have e2 := mid_set_assemble seg (tcp_doff seg)
        (((seg.take (tcp_doff seg)).drop 20).set (k + 2) (DEFAULT_MSS_CLAMP / 256))
        (k + 3) (DEFAULT_MSS_CLAMP % 256) hg1 hg2 hset_len (by omega)
      have e0 := take_mid_drop seg (tcp_doff seg) hg1
      rw [hfix, show (20 : ℕ) + k + 2 = 20 + (k + 2) by omega,
        show (20 : ℕ) + k + 3 = 20 + (k + 3) by omega, ← e2, ← e1, e0]

theorem mss_conclude (seg0 clamped seg : List ℕ)
    (hclamp : clamp_mss_raw seg0 = some clamped)
    (hlen : seg.length = clamped.length) (h12 : rd seg 12 = rd clamped 12)
    (hge : ∀ j, 20 ≤ j → rd seg j = rd clamped j) :
    (∀ k v, spec_find_mss seg = some (k, v) → v ≤ DEFAULT_MSS_CLAMP) ∧
    ∀ k v, spec_find_mss seg0 = some (k, v) →
      (DEFAULT_MSS_CLAMP < v → spec_find_mss seg = some (k, DEFAULT_MSS_CLAMP) ∧
        rd seg (20 + k + 2) = DEFAULT_MSS_CLAMP / 256 ∧
        rd seg (20 + k + 3) = DEFAULT_MSS_CLAMP % 256) ∧
      (v ≤ DEFAULT_MSS_CLAMP → ∀ j, 20 ≤ j → rd seg j = rd seg0 j) := by
  have hcong : spec_find_mss seg = spec_find_mss clamped := spec_find_congr _ _ hlen h12 hge
  obtain ⟨hmap, hid, hbytes⟩ := clamp_spec_find seg0 clamped hclamp
  constructor
  · intro k v hkv
    rw [hcong, hmap] at hkv
    cases hs0 : spec_find_mss seg0 with
    | none => rw [hs0] at hkv; simp at hkv
    | some kv0 =>
      rw [hs0] at hkv
      simp only [Option.map_some'] at hkv
      have hp := Option.some.inj hkv
      rw [Prod.mk.injEq] at hp
      obtain ⟨-, hv⟩ := hp
      rw [← hv]
      split <;> omega
  · intro k v hkv
    constructor
    · intro hgt
      have hb := spec_find_mss_bounds hkv
      have hset := hbytes k v hkv hgt
      refine ⟨?_, ?_, ?_⟩
      · rw [hcong, hmap, hkv]
        simp only [Option.map_some']
        rw [if_pos hgt]
      · rw [hge _ (by omega), hset, rd_set_ne (by omega),
          rd_set_eq (by omega)]
      · rw [hge _ (by omega), hset,
          rd_set_eq (by simp only [List.length_set]; omega)]
    · intro hle j hj
      rw [hge _ hj, hid k v hkv hle]

theorem tcp_segment_rebuild_v4 (buf seg2 out : List ℕ) (hv4 : rd buf 0 / 16 = 4)
    (hok : ipv4_ok buf = true) (hproto : rd buf 9 = 6)
    (hout : out = ipv4_fill_checksum (buf.take (ihl buf) ++ seg2 ++ buf.drop (total_len buf)))
    (hlen2 : seg2.length = total_len buf - ihl buf)
    (hplen : 20 ≤ total_len buf - ihl buf)
    (hlow : ∀ j, j < 20 → j ≠ 16 → j ≠ 17 → rd seg2 j = rd buf (ihl buf + j)) :
    ∃ seg, tcp_segment out = some seg ∧ seg.length = seg2.length ∧
      ∀ j, j ≠ 16 → j ≠ 17 → ihl buf + j ≠ 10 → ihl buf + j ≠ 11 →
        rd seg j = rd seg2 j := by
  have hn : ((20 ≤ buf.length ∧ ihl buf ≤ buf.length) ∧ ihl buf ≤ total_len buf) ∧
      total_len buf ≤ buf.length := by
    simpa [ipv4_ok, Bool.and_eq_true, decide_eq_true_eq] using hok
  obtain ⟨⟨⟨hb20, hihl_le⟩, hihl_tot⟩, htot_le⟩ := hn
  have htkl : (buf.take (ihl buf)).length = ihl buf := by
    rw [List.length_take]; omega
  have hprel : (buf.take (ihl buf) ++ seg2).length = total_len buf := by
    rw [List.length_append, htkl]; omega
  have hmidlen : (buf.take (ihl buf) ++ seg2 ++ buf.drop (total_len buf)).length
      = buf.length := by
    rw [List.length_append, hprel, List.length_drop]; omega
  have hout_len : out.length = buf.length := by
    rw [hout, ipv4_fill_length, hmidlen]
  -- reads of the rebuilt buffer within the segment region
  have hmid_seg : ∀ j, j < seg2.length →
      rd (buf.take (ihl buf) ++ seg2 ++ buf.drop (total_len buf)) (ihl buf + j)
        = rd seg2 j := by
    intro j hj
    rw [rd_append_left (by rw [hprel]; omega), rd_append_right (by omega), htkl]
    congr 1
    omega
  have hout_seg : ∀ j, j < seg2.length → ihl buf + j ≠ 10 → ihl buf + j ≠ 11 →
      rd out (ihl buf + j) = rd seg2 j := by
    intro j hj h10 h11
    rw [hout, ipv4_fill_rd _ h10 h11, hmid_seg j hj]
  -- low header bytes of the rebuilt buffer agree with the original packet
  have hout_low : ∀ p, p ≤ 9 → rd out p = rd buf p := by
    intro p hp
    rw [hout, ipv4_fill_rd _ (by omega) (by omega)]
    by_cases hcase : p < ihl buf
    · rw [rd_append_left (by rw [hprel]; omega), rd_append_left (by omega), rd_take (by omega)]
    · have hj : p = ihl buf + (p - ihl buf) := by omega
      rw [hj, hmid_seg _ (by omega), hlow _ (by omega) (by omega) (by omega)]
  have hihl_out : ihl out = ihl buf :=
    congrArg (fun x => x % 16 * 4) (hout_low 0 (by omega))
  have htot_out : total_len out = total_len buf := by
    rw [total_len, total_len, hout_low 2 (by omega), hout_low 3 (by omega)]
  have hproto_out : rd out 9 = 6 := by rw [hout_low 9 (by omega), hproto]
  have hv4_out : rd out 0 / 16 = 4 := by rw [hout_low 0 (by omega), hv4]
  have hok_out : ipv4_ok out = true := by
    rw [ipv4_ok] at hok ⊢
    rw [hihl_out, htot_out, hout_len]
    exact hok
  have hseg_eq : ipv4_payload out = (out.take (total_len buf)).drop (ihl buf) := by
    rw [ipv4_payload, hihl_out, htot_out]
  refine ⟨(out.take (total_len buf)).drop (ihl buf), ?_, ?_, ?_⟩
  · simp only [tcp_segment, hv4_out]
    rw [if_pos hok_out, if_pos hproto_out, hseg_eq]
  · rw [slice_length_gen (by omega), hlen2]
  · intro j h16 h17 h10 h11
    by_cases hj : j < seg2.length
    · rw [rd_slice_gen (by omega), hout_seg j hj h10 h11]
    · rw [rd_ge_length (by rw [slice_length_gen (by omega)]; omega), rd_ge_length (by omega)]

theorem skip_ge_40 {buf : List ℕ} {p off : ℕ}
    (h : skip_ipv6_headers buf = some (p, off)) :
    40 ≤ off ∧ 40 ≤ buf.length ∧ skip_loop buf 10 (rd buf 6) 40 = some (p, off) := by
  rw [skip_ipv6_headers] at h
  split at h
  · exact absurd h (by simp)
  · next hb => exact ⟨skip_loop_ge _ _ _ _ _ _ h, by omega, h⟩

theorem tcp_segment_rebuild_v6 (buf seg2 out : List ℕ) (off : ℕ)
    (hv6 : rd buf 0 / 16 = 6) (hok : ipv6_ok buf = true)
    (hskip : skip_ipv6_headers buf = some (6, off)) (hoff : off < buf.length)
    (hout : out = buf.take off ++ seg2) (hlen2 : seg2.length = buf.length - off) :
    tcp_segment out = some seg2 := by
  obtain ⟨hoff40, hb40, hskipl⟩ := skip_ge_40 hskip
  have htkl : (buf.take off).length = off := by rw [List.length_take]; omega
  have hout_len : out.length = buf.length := by
    rw [hout, List.length_append, htkl]; omega
  have hout_low : ∀ p, p < off → rd out p = rd buf p := by
    intro p hp
    rw [hout, rd_append_left (by omega), rd_take hp]
  have hv6_out : rd out 0 / 16 = 6 := by rw [hout_low 0 (by omega), hv6]
  have hok_out : ipv6_ok out = true := by
    rw [ipv6_ok, ipv6_payload_len] at hok ⊢
    rw [hout_low 4 (by omega), hout_low 5 (by omega), hout_len]
    exact hok
  have hskip_out : skip_ipv6_headers out = some (6, off) := by
    rw [skip_ipv6_headers, if_neg (by omega), hout_low 6 (by omega)]
    exact skip_loop_congr 10 buf out (rd buf 6) 40 6 off hskipl hout_len.symm
      (fun j hj => (hout_low j hj).symm)
  simp only [tcp_segment, hv6_out]
  rw [if_pos hok_out, hskip_out]
  simp only [if_pos (show off < out.length by omega)]
  rw [hout, List.drop_left' htkl]
  simp

/-- Claim C6: for every emitted trap event, the MSS option (kind 2, length 4)
of the stored packet's TCP segment, when present, has a value at most
`DEFAULT_MSS_CLAMP` (1280); when the incoming SYN's MSS exceeded 1280 the
stored option holds exactly 1280 in network byte order at the same position,
and when it was at most 1280 every byte of the options region (and beyond) is
stored unchanged. -/
theorem trap_event_mss (buf : List ℕ) (t : PrismTrap)
    (h : inspect_packet buf = some (some t)) :
    ∃ seg0 seg, tcp_segment buf = some seg0 ∧ tcp_segment t.packet = some seg ∧
      (∀ k v, spec_find_mss seg = some (k, v) → v ≤ DEFAULT_MSS_CLAMP) ∧
      ∀ k v, spec_find_mss seg0 = some (k, v) →
        (DEFAULT_MSS_CLAMP < v → spec_find_mss seg = some (k, DEFAULT_MSS_CLAMP) ∧
          rd seg (20 + k + 2) = DEFAULT_MSS_CLAMP / 256 ∧
          rd seg (20 + k + 3) = DEFAULT_MSS_CLAMP % 256) ∧
        (v ≤ DEFAULT_MSS_CLAMP → ∀ j, 20 ≤ j → rd seg j = rd seg0 j) := by
  obtain ⟨tdst, tpkt⟩ := t
  simp only [inspect_packet] at h
  split at h
  case isTrue => exact absurd h (by simp)
  case isFalse hlen20 =>
    split at h
    case h_3 => exact absurd h (by simp)
    case h_1 hv4 =>
      simp only [inspect_ipv4] at h
      split at h
      case isFalse => exact absurd h (by simp)
      case isTrue hok =>
        split at h
        case isFalse => exact absurd h (by simp)
        case isTrue hproto =>
          split at h
          case isFalse => exact absurd h (by simp)
          case isTrue hflags =>
            split at h
            case h_1 => exact absurd h (by simp)
            case h_2 clamped hclamp =>
              obtain ⟨⟨htcpok, -⟩, -⟩ :
                  ((tcp_ok (ipv4_payload buf) = true ∧ tcp_syn (ipv4_payload buf) = true)
                    ∧ (!tcp_ack (ipv4_payload buf)) = true) := by
                simpa [Bool.and_eq_true] using hflags
              have hn : ((20 ≤ buf.length ∧ ihl buf ≤ buf.length) ∧
                  ihl buf ≤ total_len buf) ∧ total_len buf ≤ buf.length := by
                simpa [ipv4_ok, Bool.and_eq_true, decide_eq_true_eq] using hok
              obtain ⟨⟨⟨hb20, hihl_le⟩, hihl_tot⟩, htot_le⟩ := hn
              obtain ⟨⟨hp20, -⟩, -⟩ :
                  ((20 ≤ (ipv4_payload buf).length ∧ 20 ≤ tcp_doff (ipv4_payload buf))
                    ∧ tcp_doff (ipv4_payload buf) ≤ (ipv4_payload buf).length) := by
                simpa [tcp_ok, Bool.and_eq_true, decide_eq_true_eq] using htcpok
              have hPlen : (ipv4_payload buf).length = total_len buf - ihl buf := by
                rw [ipv4_payload]
                exact slice_length_gen htot_le
              have hclen : clamped.length = (ipv4_payload buf).length :=
                clamp_mss_raw_length hclamp
              have h12c : rd clamped 12 = rd (ipv4_payload buf) 12 :=
                clamp_rd_keep hclamp (by omega)
              have hdoffc : tcp_doff clamped = tcp_doff (ipv4_payload buf) :=
                congrArg (fun x => x / 16 * 4) h12c
              have htcpok_c : tcp_ok clamped = true := by
                rw [tcp_ok] at htcpok ⊢
                rw [hclen, hdoffc]
                exact htcpok
              rw [if_pos htcpok_c] at h
              have hinj := Option.some.inj (Option.some.inj h)
              rw [PrismTrap.mk.injEq] at hinj
              obtain ⟨-, rfl⟩ := hinj
              have hseg0 : tcp_segment buf = some (ipv4_payload buf) := by
                simp only [tcp_segment, hv4]
                rw [if_pos hok, if_pos hproto]
              have hS2len : (tcp_fill_checksum (ipv4_src buf) (ipv4_dst buf) clamped).length
                  = total_len buf - ihl buf := by
                rw [tcp_fill_length, hclen, hPlen]
              have hS2rd : ∀ j, j ≠ 16 → j ≠ 17 →
                  rd (tcp_fill_checksum (ipv4_src buf) (ipv4_dst buf) clamped) j
                    = rd clamped j :=
                fun j h16 h17 => tcp_fill_rd _ _ _ h16 h17
              have hlow : ∀ j, j < 20 → j ≠ 16 → j ≠ 17 →
                  rd (tcp_fill_checksum (ipv4_src buf) (ipv4_dst buf) clamped) j
                    = rd buf (ihl buf + j) := by
                intro j hj h16 h17
                rw [hS2rd j h16 h17, clamp_rd_keep hclamp hj, ipv4_payload,
                  rd_slice_gen (by omega)]
              obtain ⟨seg, hsegeq, hseglen, hsegrd⟩ :=
                tcp_segment_rebuild_v4 buf
                  (tcp_fill_checksum (ipv4_src buf) (ipv4_dst buf) clamped) _
                  hv4 hok hproto rfl hS2len (by omega) hlow
              have hlenf : seg.length = clamped.length := by
                rw [hseglen, tcp_fill_length]
              have h12f : rd seg 12 = rd clamped 12 := by
                rw [hsegrd 12 (by omega) (by omega) (by omega) (by omega),
                  hS2rd 12 (by omega) (by omega)]
              have hgef : ∀ j, 20 ≤ j → rd seg j = rd clamped j := by
                intro j hj
                rw [hsegrd j (by omega) (by omega) (by omega) (by omega),
                  hS2rd j (by omega) (by omega)]
              have hconc := mss_conclude (ipv4_payload buf) clamped seg hclamp hlenf h12f hgef
              exact ⟨ipv4_payload buf, seg, hseg0, hsegeq, hconc.1, hconc.2⟩
    case h_2 hv6 =>
      simp only [inspect_ipv6] at h
      split at h
      case isFalse => exact absurd h (by simp)
      case isTrue hok6 =>
        split at h
        case h_2 => exact absurd h (by simp)
        case h_1 p off hskipeq =>
          split at h
          case isFalse => exact absurd h (by simp)
          case isTrue hp6 =>
            subst hp6
            split at h
            case isTrue => exact absurd h (by simp)
            case isFalse houtb =>
              split at h
              case isFalse => exact absurd h (by simp)
              case isTrue hoff =>
                split at h
                case isFalse => exact absurd h (by simp)
                case isTrue hflags =>
                  split at h
                  case h_1 => exact absurd h (by simp)
                  case h_2 clamped hclamp =>
                    obtain ⟨⟨htcpok, -⟩, -⟩ :
                        ((tcp_ok (buf.drop off) = true ∧ tcp_syn (buf.drop off) = true)
                          ∧ (!tcp_ack (buf.drop off)) = true) := by
                      simpa [Bool.and_eq_true] using hflags
                    have hSlen : (buf.drop off).length = buf.length - off :=
                      List.length_drop off buf
                    have hclen : clamped.length = (buf.drop off).length :=
                      clamp_mss_raw_length hclamp
                    have h12c : rd clamped 12 = rd (buf.drop off) 12 :=
                      clamp_rd_keep hclamp (by omega)
                    have hdoffc : tcp_doff clamped = tcp_doff (buf.drop off) :=
                      congrArg (fun x => x / 16 * 4) h12c
                    have htcpok_c : tcp_ok clamped = true := by
                      rw [tcp_ok] at htcpok ⊢
                      rw [hclen, hdoffc]
                      exact htcpok
                    rw [if_pos htcpok_c] at h
                    have hinj := Option.some.inj (Option.some.inj h)
                    rw [PrismTrap.mk.injEq] at hinj
                    obtain ⟨-, rfl⟩ := hinj
                    have hseg0 : tcp_segment buf = some (buf.drop off) := by
                      simp only [tcp_segment, hv6]
                      rw [if_pos hok6, hskipeq]
                      simp only [if_pos hoff]
                      simp
                    have hS2len : (tcp_fill_checksum (ipv6_src buf) (ipv6_dst buf)
                        clamped).length = buf.length - off := by
                      rw [tcp_fill_length, hclen, hSlen]
                    have hsegeq :=
                      tcp_segment_rebuild_v6 buf
                        (tcp_fill_checksum (ipv6_src buf) (ipv6_dst buf) clamped) _
                        off hv6 hok6 hskipeq hoff rfl hS2len
                    have hlenf : (tcp_fill_checksum (ipv6_src buf) (ipv6_dst buf)
                        clamped).length = clamped.length := tcp_fill_length _ _ _
                    have h12f : rd (tcp_fill_checksum (ipv6_src buf) (ipv6_dst buf)
                        clamped) 12 = rd clamped 12 :=
                      tcp_fill_rd _ _ _ (by omega) (by omega)
                    have hgef : ∀ j, 20 ≤ j →
                        rd (tcp_fill_checksum (ipv6_src buf) (ipv6_dst buf) clamped) j
                          = rd clamped j :=
                      fun j hj => tcp_fill_rd _ _ _ (by omega) (by omega)
                    have hconc := mss_conclude (buf.drop off) clamped _ hclamp hlenf h12f hgef
                    exact ⟨buf.drop off, _, hseg0, hsegeq, hconc.1, hconc.2⟩

/-- Witness for `trap_event_mss`: the concrete SYN `pkt44` produces the trap
`trap44`, and the conclusion holds there. -/
theorem trap_event_mss_witness :
    inspect_packet pkt44 = some (some trap44) ∧
    (∃ seg0 seg, tcp_segment pkt44 = some seg0 ∧ tcp_segment trap44.packet = some seg ∧
      (∀ k v, spec_find_mss seg = some (k, v) → v ≤ DEFAULT_MSS_CLAMP) ∧
      ∀ k v, spec_find_mss seg0 = some (k, v) →
        (DEFAULT_MSS_CLAMP < v → spec_find_mss seg = some (k, DEFAULT_MSS_CLAMP) ∧
          rd seg (20 + k + 2) = DEFAULT_MSS_CLAMP / 256 ∧
          rd seg (20 + k + 3) = DEFAULT_MSS_CLAMP % 256) ∧
        (v ≤ DEFAULT_MSS_CLAMP → ∀ j, 20 ≤ j → rd seg j = rd seg0 j)) :=
  ⟨by rfl, trap_event_mss pkt44 trap44 (by rfl)⟩


/-- Counterexample to claim C1: `syn_rst_pkt` carries a TCP segment with
SYN=1, ACK=0 but also RST=1, and `inspect_packet` does emit a trap event for
it — the detector never examines the RST flag. -/
theorem syn_rst_trapped :
    inspect_emits syn_rst_pkt = true ∧ tcp_rst (ipv4_payload syn_rst_pkt) = true := by
  constructor <;> rfl

/-- Amended claim C1: `inspect_packet` returns a trap event iff the buffer is
a valid TCP-carrying IP packet whose full TCP header fits, whose first TCP
segment has SYN=1 and ACK=0 — the RST flag is not examined — and on whose
options the MSS scan of `clamp_mss_raw` terminates. -/
theorem inspect_packet_characterization (buf : List ℕ) :
    (∃ t, inspect_packet buf = some (some t)) ↔ trap_condition buf := by
  constructor
  · rintro ⟨t, h⟩
    simp only [inspect_packet] at h
    split at h
    case isTrue => exact absurd h (by simp)
    case isFalse hlen20 =>
      refine ⟨by omega, ?_⟩
      split at h
      case h_3 => exact absurd h (by simp)
      case h_1 hv4 =>
        left
        simp only [inspect_ipv4] at h
        split at h
        case isFalse => exact absurd h (by simp)
        case isTrue hok =>
          split at h
          case isFalse => exact absurd h (by simp)
          case isTrue hproto =>
            split at h
            case isFalse => exact absurd h (by simp)
            case isTrue hflags =>
              split at h
              case h_1 => exact absurd h (by simp)
              case h_2 clamped hclamp =>
                obtain ⟨⟨htok, hsyn⟩, hack⟩ :
                    ((tcp_ok (ipv4_payload buf) = true ∧ tcp_syn (ipv4_payload buf) = true)
                      ∧ (!tcp_ack (ipv4_payload buf)) = true) := by
                  simpa [Bool.and_eq_true] using hflags
                exact ⟨hv4, hok, hproto, htok, hsyn, by simpa using hack, by simp [hclamp]⟩
      case h_2 hv6 =>
        right
        simp only [inspect_ipv6] at h
        split at h
        case isFalse => exact absurd h (by simp)
        case isTrue hok6 =>
          split at h
          case h_2 => exact absurd h (by simp)
          case h_1 p off hskipeq =>
            split at h
            case isFalse => exact absurd h (by simp)
            case isTrue hp6 =>
              subst hp6
              split at h
              case isTrue => exact absurd h (by simp)
              case isFalse houtb =>
                split at h
                case isFalse => exact absurd h (by simp)
                case isTrue hoff =>
                  split at h
                  case isFalse => exact absurd h (by simp)
                  case isTrue hflags =>
                    split at h
                    case h_1 => exact absurd h (by simp)
                    case h_2 clamped hclamp =>
                      obtain ⟨⟨htok, hsyn⟩, hack⟩ :
                          ((tcp_ok (buf.drop off) = true ∧ tcp_syn (buf.drop off) = true)
                            ∧ (!tcp_ack (buf.drop off)) = true) := by
                        simpa [Bool.and_eq_true] using hflags
                      exact ⟨hv6, hok6, off, hskipeq, hoff, htok, hsyn,
                        by simpa using hack, by simp [hclamp]⟩
  · rintro ⟨hlen, hcase⟩
    rcases hcase with ⟨hv4, hok, hproto, htok, hsyn, hack, hclamp⟩ |
      ⟨hv6, hok6, off, hskipeq, hoff, htok, hsyn, hack, hclamp⟩
    · obtain ⟨clamped, hcl⟩ := Option.isSome_iff_exists.mp hclamp
      simp only [inspect_packet]
      rw [if_neg (by omega), hv4]
      simp only [inspect_ipv4]
      rw [if_pos hok, if_pos hproto,
        if_pos (by simp [Bool.and_eq_true, htok, hsyn, hack]), hcl]
      exact ⟨_, rfl⟩
    · obtain ⟨clamped, hcl⟩ := Option.isSome_iff_exists.mp hclamp
      simp only [inspect_packet]
      rw [if_neg (by omega), hv6]
      simp only [inspect_ipv6]
      rw [if_pos hok6, hskipeq]
      simp only [reduceIte]
      rw [if_neg (by omega), if_pos hoff,
        if_pos (by simp [Bool.and_eq_true, htok, hsyn, hack]), hcl]
      exact ⟨_, rfl⟩


/-- Witness for `clamp_mss_raw_frame`: instantiated at the TCP segment of the
concrete SYN `pkt44`, whose MSS 1460 exceeds the clamp. -/
theorem clamp_mss_raw_frame_witness :
    clamp_mss_raw (ipv4_payload pkt44) = some out44 ∧
    (out44.length = (ipv4_payload pkt44).length ∧
     (out44 = ipv4_payload pkt44 ∨ ∃ k,
        20 + k + 4 ≤ tcp_doff (ipv4_payload pkt44) ∧
        tcp_doff (ipv4_payload pkt44) ≤ (ipv4_payload pkt44).length ∧
        rd (ipv4_payload pkt44) (20 + k) = 2 ∧
        rd (ipv4_payload pkt44) (20 + k + 1) = 4 ∧
        DEFAULT_MSS_CLAMP < rd (ipv4_payload pkt44) (20 + k + 2) * 256 +
          rd (ipv4_payload pkt44) (20 + k + 3) ∧
        out44 = ((ipv4_payload pkt44).set (20 + k + 2) (DEFAULT_MSS_CLAMP / 256)).set
          (20 + k + 3) (DEFAULT_MSS_CLAMP % 256))) :=
  ⟨by rfl, clamp_mss_raw_frame (ipv4_payload pkt44) out44 (by rfl)⟩


theorem rd_cons_succ (x : ℕ) (l : List ℕ) (j : ℕ) : rd (x :: l) (j + 1) = rd l j := rfl

def pre40 (n : ℕ) : List ℕ :=
  0x60 :: 0 :: 0 :: 0 :: ((8 * n + 20) / 256) :: ((8 * n + 20) % 256) ::
    (if n = 0 then 6 else 0) :: 64 :: List.replicate 32 0

theorem chain_eq (n : ℕ) : mk_v6_chain n = pre40 n ++ ext_chain n := rfl

theorem pre40_length (n : ℕ) : (pre40 n).length = 40 := by simp [pre40]

theorem rd_chain_shift (n j : ℕ) : rd (mk_v6_chain n) (40 + j) = rd (ext_chain n) j := by
  rw [chain_eq]
  have h := @rd_append_right (pre40 n) (ext_chain n) (40 + j)
    (by rw [pre40_length]; omega)
  rw [h, pre40_length]
  congr 1
  omega

theorem ext_peel (m j : ℕ) : rd (ext_chain (m + 1)) (j + 8) = rd (ext_chain m) j := rfl

theorem ext_rd0 (m : ℕ) : rd (ext_chain (m + 1)) 0 = if m = 0 then 6 else 0 := rfl

theorem ext_rd1 (m : ℕ) : rd (ext_chain (m + 1)) 1 = 0 := rfl

theorem ext_chain_length (n : ℕ) : (ext_chain n).length = 8 * n + 20 := by
  induction n with
  | zero => simp [ext_chain]
  | succ m ih => simp [ext_chain, ih]; omega

theorem mk_v6_chain_length (n : ℕ) : (mk_v6_chain n).length = 8 * n + 60 := by
  rw [chain_eq, List.length_append, pre40_length, ext_chain_length]
  omega

theorem ext_head : ∀ (i m : ℕ), i < m → rd (ext_chain m) (8 * i) = if i + 1 = m then 6 else 0 := by
  intro i
  induction i with
  | zero =>
    intro m hm
    obtain ⟨m', rfl⟩ := Nat.exists_eq_succ_of_ne_zero (by omega : m ≠ 0)
    rw [show 8 * 0 = 0 by omega, ext_rd0]
    exact if_congr (by omega) rfl rfl
  | succ i ih =>
    intro m hm
    obtain ⟨m', rfl⟩ := Nat.exists_eq_succ_of_ne_zero (by omega : m ≠ 0)
    rw [show 8 * (i + 1) = 8 * i + 8 by omega, ext_peel, ih m' (by omega)]
    exact if_congr (by omega) rfl rfl

theorem ext_len_byte : ∀ (i m : ℕ), i < m → rd (ext_chain m) (8 * i + 1) = 0 := by
  intro i
  induction i with
  | zero =>
    intro m hm
    obtain ⟨m', rfl⟩ := Nat.exists_eq_succ_of_ne_zero (by omega : m ≠ 0)
    rw [show 8 * 0 + 1 = 1 by omega]
    exact ext_rd1 m'
  | succ i ih =>
    intro m hm
    obtain ⟨m', rfl⟩ := Nat.exists_eq_succ_of_ne_zero (by omega : m ≠ 0)
    rw [show 8 * (i + 1) + 1 = (8 * i + 1) + 8 by omega, ext_peel]
    exact ih m' (by omega)

theorem skip_chain_run : ∀ (m n i fuel : ℕ), i + m = n → m < fuel →
    skip_loop (mk_v6_chain n) fuel (if i = n then 6 else 0) (40 + 8 * i)
      = some (6, 40 + 8 * n) := by
  intro m
  induction m with
  | zero =>
    intro n i fuel hi hf
    obtain ⟨f, rfl⟩ := Nat.exists_eq_succ_of_ne_zero (by omega : fuel ≠ 0)
    obtain rfl : i = n := by omega
    rw [if_pos rfl]
    simp only [skip_loop, reduceIte]
  | succ m ih =>
    intro n i fuel hi hf
    obtain ⟨f, rfl⟩ := Nat.exists_eq_succ_of_ne_zero (by omega : fuel ≠ 0)
    rw [if_neg (by omega)]
    simp only [skip_loop]
    rw [if_neg (by norm_num), if_pos (by norm_num),
      if_neg (by rw [mk_v6_chain_length]; omega),
      show 40 + 8 * i + 1 = 40 + (8 * i + 1) by omega,
      rd_chain_shift n (8 * i + 1), ext_len_byte i n (by omega),
      rd_chain_shift n (8 * i), ext_head i n (by omega)]
    rw [if_neg (by norm_num : ¬(0 : ℕ) = 44),
      show 40 + 8 * i + (0 + 1) * 8 = 40 + 8 * (i + 1) by omega]
    exact ih n (i + 1) f (by omega) (by omega)

theorem skip_chain_fail : ∀ (fuel n i m : ℕ), i + m = n → fuel ≤ m →
    skip_loop (mk_v6_chain n) fuel (if i = n then 6 else 0) (40 + 8 * i) = none := by
  intro fuel
  induction fuel with
  | zero => intro n i m hi hf; rfl
  | succ f ih =>
    intro n i m hi hf
    rw [if_neg (by omega)]
    simp only [skip_loop]
    rw [if_neg (by norm_num), if_pos (by norm_num),
      if_neg (by rw [mk_v6_chain_length]; omega),
      show 40 + 8 * i + 1 = 40 + (8 * i + 1) by omega,
      rd_chain_shift n (8 * i + 1), ext_len_byte i n (by omega),
      rd_chain_shift n (8 * i), ext_head i n (by omega)]
    rw [if_neg (by norm_num : ¬(0 : ℕ) = 44),
      show 40 + 8 * i + (0 + 1) * 8 = 40 + 8 * (i + 1) by omega]
    exact ih n (i + 1) (m - 1) (by omega) (by omega)

theorem ipv6_ok_chain (n : ℕ) : ipv6_ok (mk_v6_chain n) = true := by
  have h4 : rd (mk_v6_chain n) 4 = (8 * n + 20) / 256 := rfl
  have h5 : rd (mk_v6_chain n) 5 = (8 * n + 20) % 256 := rfl
  simp only [ipv6_ok, ipv6_payload_len, h4, h5, mk_v6_chain_length,
    Bool.and_eq_true, decide_eq_true_eq]
  have := Nat.div_add_mod (8 * n + 20) 256
  omega

theorem skip_ipv6_headers_chain (n : ℕ) :
    skip_ipv6_headers (mk_v6_chain n) = if n ≤ 9 then some (6, 40 + 8 * n) else none := by
  have h6 : rd (mk_v6_chain n) 6 = if n = 0 then 6 else 0 := rfl
  simp only [skip_ipv6_headers, mk_v6_chain_length]
  rw [if_neg (by omega), h6]
  have hform : (if n = 0 then 6 else 0) = (if (0 : ℕ) = n then 6 else 0) :=
    if_congr (by omega) rfl rfl
  by_cases hn : n ≤ 9
  · rw [if_pos hn]
    have := skip_chain_run n n 0 10 (by omega) (by omega)
    rw [show 40 + 8 * 0 = 40 by omega] at this
    rw [hform]
    exact this
  · rw [if_neg hn]
    have := skip_chain_fail 10 n 0 n (by omega) (by omega)
    rw [show 40 + 8 * 0 = 40 by omega] at this
    rw [hform]
    exact this

/-- Corrected classifier boundary for IPv6 extension-header chains: the walk's
10 iterations each consume one header, so a chain of up to 9 extension headers
before TCP classifies as `Tcp`, a chain of 10 or more classifies as `Other`;
in general, whenever the walk fails on a valid fixed header the classifier
returns `Other`, never `Unknown`. -/
theorem get_packet_type_ipv6_chain :
    (∀ n, get_packet_type (mk_v6_chain n) = if n ≤ 9 then .Tcp else .Other) ∧
    (∀ buf, rd buf 0 / 16 = 6 → ipv6_ok buf = true → skip_ipv6_headers buf = none →
      get_packet_type buf = .Other) := by
  constructor
  · intro n
    have h00 : rd (mk_v6_chain n) 0 = 96 := rfl
    have h0 : rd (mk_v6_chain n) 0 / 16 = 6 := by rw [h00]
    have hlen : ¬ (mk_v6_chain n).length < 1 := by rw [mk_v6_chain_length]; omega
    simp only [get_packet_type]
    rw [if_neg hlen, h0]
    rw [if_pos (ipv6_ok_chain n), skip_ipv6_headers_chain]
    by_cases hn : n ≤ 9
    · rw [if_pos hn, if_pos hn]
      simp
    · rw [if_neg hn, if_neg hn]
  · intro buf hv6 hok6 hskip
    have hne : buf ≠ [] := by
      intro h
      rw [h] at hv6
      simp [rd] at hv6
    have hlen : ¬ buf.length < 1 := by
      have := List.length_pos.mpr hne
      omega
    simp only [get_packet_type]
    rw [if_neg hlen, hv6, if_pos hok6, hskip]

/-- Witness for `get_packet_type_ipv6_chain`: nine extension headers still
classify as `Tcp`, and the truncated chain `v6_truncated` (on which the walk
fails) classifies as `Other`. -/
theorem get_packet_type_ipv6_chain_witness :
    get_packet_type (mk_v6_chain 9) = .Tcp ∧
    (rd v6_truncated 0 / 16 = 6 ∧ ipv6_ok v6_truncated = true ∧
      skip_ipv6_headers v6_truncated = none ∧ get_packet_type v6_truncated = .Other) :=
  ⟨by simpa using get_packet_type_ipv6_chain.1 9,
   ⟨by decide, by decide, by decide,
    get_packet_type_ipv6_chain.2 v6_truncated (by decide) (by decide) (by decide)⟩⟩


def active_in (hs : List ℕ) (socks : List (Option TcpSocketM)) (t : SockAddr) : Bool :=
  hs.any (fun h =>
    match socks.getD h none with
    | some so => so.endpoint = t
    | none => false)

theorem active_to_eq (s : StackState) (t : SockAddr) :
    active_to s t = active_in s.active_tunnels s.sockets t := rfl

theorem add_socket_new (l : List (Option TcpSocketM)) (sck : TcpSocketM) :
    (add_socket l sck).2.getD (add_socket l sck).1 none = some sck := by
  induction l with
  | nil => rfl
  | cons x rest ih =>
    cases x with
    | none => rfl
    | some y => simpa [add_socket] using ih

theorem add_socket_vacant (l : List (Option TcpSocketM)) (sck : TcpSocketM) :
    l.getD (add_socket l sck).1 none = none := by
  induction l with
  | nil => rfl
  | cons x rest ih =>
    cases x with
    | none => rfl
    | some y => simpa [add_socket] using ih

theorem add_socket_other (l : List (Option TcpSocketM)) (sck : TcpSocketM) (j : ℕ)
    (hj : j ≠ (add_socket l sck).1) :
    (add_socket l sck).2.getD j none = l.getD j none := by
  induction l generalizing j with
  | nil =>
    simp only [add_socket] at hj ⊢
    cases j with
    | zero => exact absurd rfl hj
    | succ j => rfl
  | cons x rest ih =>
    cases x with
    | none =>
      simp only [add_socket] at hj ⊢
      cases j with
      | zero => exact absurd rfl hj
      | succ j => rfl
    | some y =>
      simp only [add_socket] at hj ⊢
      cases j with
      | zero => rfl
      | succ j =>
        have := ih j (by omega)
        simpa using this

theorem getD_set_none_mono {l : List (Option TcpSocketM)} {i j : ℕ} {x : TcpSocketM}
    (h : (l.set i none).getD j none = some x) : l.getD j none = some x := by
  rcases eq_or_ne i j with rfl | hne
  · rw [List.getD_eq_getElem?_getD, List.getElem?_set_self' ] at h
    rcases hg : l[i]? with - | v
    · rw [hg] at h
      simp at h
    · rw [hg] at h
      simp at h
  · rwa [List.getD_eq_getElem?_getD, List.getElem?_set_ne hne,
      ← List.getD_eq_getElem?_getD] at h

theorem getD_foldl_set_none {hs : List ℕ} {l : List (Option TcpSocketM)} {j : ℕ}
    {x : TcpSocketM}
    (h : (hs.foldl (fun l h => l.set h none) l).getD j none = some x) :
    l.getD j none = some x := by
  induction hs generalizing l with
  | nil => exact h
  | cons h0 rest ih => exact getD_set_none_mono (ih h)

theorem active_in_add {hs : List ℕ} {socks : List (Option TcpSocketM)}
    {sck : TcpSocketM} {t : SockAddr} (hne : sck.endpoint ≠ t)
    (h : active_in (hs ++ [(add_socket socks sck).1]) (add_socket socks sck).2 t = true) :
    active_in hs socks t = true := by
  simp only [active_in, List.any_append, List.any_cons, List.any_nil,
    Bool.or_eq_true, Bool.or_false, List.any_eq_true] at h ⊢
  rcases h with ⟨h0, hmem, hp⟩ | hlast
  · rcases eq_or_ne h0 (add_socket socks sck).1 with rfl | hne0
    · rw [add_socket_new] at hp
      simp only [decide_eq_true_eq] at hp
      exact absurd hp hne
    · refine ⟨h0, hmem, ?_⟩
      rwa [add_socket_other socks sck h0 hne0] at hp
  · rw [add_socket_new] at hlast
    simp only [decide_eq_true_eq] at hlast
    exact absurd hlast hne

theorem active_in_set_closed (hs : List ℕ) (socks : List (Option TcpSocketM))
    (t : SockAddr) (h0 : ℕ) :
    active_in hs (socks.set h0 ((socks.getD h0 none).map
      (fun so => { so with closed := true }))) t = active_in hs socks t := by
  simp only [active_in]
  refine congrArg _ (funext fun h => ?_)
  rcases eq_or_ne h0 h with rfl | hne
  · rw [List.getD_eq_getElem?_getD, List.getElem?_set_self', List.getD_eq_getElem?_getD]
    rcases hg : socks[h0]? with - | v
    · simp
    · rcases v with - | so
      · simp [List.getD_eq_getElem?_getD, hg]
      · simp [List.getD_eq_getElem?_getD, hg]
  · rw [List.getD_eq_getElem?_getD, List.getElem?_set_ne hne, ← List.getD_eq_getElem?_getD]

theorem active_in_set_ne {hs : List ℕ} {socks : List (Option TcpSocketM)}
    {t : SockAddr} {h0 : ℕ}
    (h : active_in hs (socks.set h0 none) t = true) : active_in hs socks t = true := by
  simp only [active_in, List.any_eq_true] at h ⊢
  obtain ⟨h1, hmem, hp⟩ := h
  refine ⟨h1, hmem, ?_⟩
  cases hget : (socks.set h0 none).getD h1 none with
  | none => rw [hget] at hp; simp at hp
  | some so => rw [hget] at hp; rw [getD_set_none_mono hget]; exact hp

theorem active_in_reap {hs closed_h : List ℕ} {socks : List (Option TcpSocketM)}
    {t : SockAddr} {p : ℕ → Bool}
    (h : active_in (hs.filter p) (closed_h.foldl (fun l h => l.set h none) socks) t = true) :
    active_in hs socks t = true := by
  simp only [active_in, List.any_eq_true] at h ⊢
  obtain ⟨h1, hmem, hp⟩ := h
  refine ⟨h1, (List.mem_filter.mp hmem).1, ?_⟩
  cases hget : (closed_h.foldl (fun l h => l.set h none) socks).getD h1 none with
  | none => rw [hget] at hp; simp at hp
  | some so => rw [hget] at hp; rw [getD_foldl_set_none hget]; exact hp

theorem pending_erase_isSome {t k : SockAddr} {l : List (SockAddr × PrismTrap)}
    (h : (alist_lookup t (alist_erase k l)).isSome = true) :
    (alist_lookup t l).isSome = true := by
  rcases eq_or_ne k t with rfl | hne
  · rw [alist_lookup_erase_self] at h
    simp at h
  · rwa [alist_lookup_erase_ne (Ne.symm hne)] at h

theorem active_in_add_sub {hs : List ℕ} {socks : List (Option TcpSocketM)}
    {sck : TcpSocketM} {t : SockAddr} (hne : sck.endpoint ≠ t)
    (h : active_in hs (add_socket socks sck).2 t = true) :
    active_in hs socks t = true := by
  simp only [active_in, List.any_eq_true] at h ⊢
  obtain ⟨h0, hmem, hp⟩ := h
  rcases eq_or_ne h0 (add_socket socks sck).1 with rfl | hne0
  · rw [add_socket_new] at hp
    simp only [decide_eq_true_eq] at hp
    exact absurd hp hne
  · refine ⟨h0, hmem, ?_⟩
    rwa [add_socket_other socks sck h0 hne0] at hp

theorem handle_trap_pending_ne (s : StackState) (ev : PrismTrap) (pkt : List ℕ)
    (reqOk : Bool) {t : SockAddr} (hne : ev.dst ≠ t) :
    pending_has (handle_trap s ev pkt reqOk) t = pending_has s t := by
  simp only [handle_trap, initiate_consistent_handshake, initiate_fast_handshake]
  split
  · split
    · split
      · simp only [pending_has]
        rw [alist_lookup_insert_ne (Ne.symm hne)]
      · rfl
    · rfl
  · split
    · rfl
    · split
      · split <;> rfl
      · rfl

theorem handle_trap_active_ne (s : StackState) (ev : PrismTrap) (pkt : List ℕ)
    (reqOk : Bool) {t : SockAddr} (hne : ev.dst ≠ t) :
    active_to (handle_trap s ev pkt reqOk) t = true → active_to s t = true := by
  simp only [handle_trap, initiate_consistent_handshake, initiate_fast_handshake]
  split
  · split
    · split
      · exact id
      · exact id
    · exact id
  · split
    · exact id
    · split
      · split
        · intro ha
          rw [active_to_eq] at ha ⊢
          exact active_in_add hne ha
        · intro ha
          rw [active_to_eq] at ha ⊢
          exact active_in_add_sub hne (active_in_set_ne ha)
      · intro ha
        rw [active_to_eq] at ha ⊢
        exact active_in_add_sub hne ha

theorem handle_trap_ZO (s : StackState) (ev : PrismTrap) (pkt : List ℕ) (reqOk : Bool)
    (t : SockAddr) (hp : pending_has s t = false) (ha : active_to s t = false) :
    ¬(pending_has (handle_trap s ev pkt reqOk) t = true ∧
      active_to (handle_trap s ev pkt reqOk) t = true) := by
  rintro ⟨hp1, ha1⟩
  revert hp1 ha1
  simp only [handle_trap, initiate_consistent_handshake, initiate_fast_handshake]
  split
  · -- Consistent: the active tunnels and sockets are untouched
    split
    · split
      · intro hp1 ha1
        have hx : active_to s t = true := ha1
        rw [hx] at ha
        simp at ha
      · intro hp1 ha1
        have hx : pending_has s t = true := hp1
        rw [hx] at hp
        simp at hp
    · intro hp1 ha1
      have hx : pending_has s t = true := hp1
      rw [hx] at hp
      simp at hp
  · -- Fast: the pending map is untouched
    split
    · intro hp1 ha1
      have hx : pending_has s t = true := hp1
      rw [hx] at hp
      simp at hp
    · split
      · split
        · intro hp1 ha1
          have hx : pending_has s t = true := hp1
          rw [hx] at hp
          simp at hp
        · intro hp1 ha1
          have hx : pending_has s t = true := hp1
          rw [hx] at hp
          simp at hp
      · intro hp1 ha1
        have hx : pending_has s t = true := hp1
        rw [hx] at hp
        simp at hp

theorem feedback_pending_self (s : StackState) (k : SockAddr) (succ : Bool) :
    pending_has (handle_handshake_feedback s k succ) k = false := by
  simp only [handle_handshake_feedback]
  split
  · next hl => simp [pending_has, hl]
  · split
    · split
      · simp [pending_has, alist_lookup_erase_self]
      · simp [pending_has, alist_lookup_erase_self]
    · simp [pending_has, alist_lookup_erase_self]

theorem feedback_ne (s : StackState) (k : SockAddr) (succ : Bool) {t : SockAddr}
    (hne : k ≠ t) :
    pending_has (handle_handshake_feedback s k succ) t = pending_has s t ∧
    (active_to (handle_handshake_feedback s k succ) t = true → active_to s t = true) := by
  simp only [handle_handshake_feedback]
  split
  · exact ⟨rfl, id⟩
  · split
    · split
      · exact ⟨by simp [pending_has, alist_lookup_erase_ne (Ne.symm hne)], id⟩
      · refine ⟨by simp [pending_has, alist_lookup_erase_ne (Ne.symm hne)], ?_⟩
        intro ha
        rw [active_to_eq] at ha ⊢
        exact active_in_add hne ha
    · exact ⟨by simp [pending_has, alist_lookup_erase_ne (Ne.symm hne)], id⟩

theorem step_cases (e : StackEv) (s s1 : StackState) (t : SockAddr)
    (h : step e s = some s1) :
    (traps_to t e = true ∧ ∃ ev pkt reqOk, s1 = handle_trap s ev pkt reqOk) ∨
    (pending_has s1 t = pending_has s t ∧ (active_to s1 t = true → active_to s t = true)) ∨
    (pending_has s1 t = false ∧ (pending_has s t = false → s1 = s)) := by
  cases e with
  | ingress pkt rq rl =>
    simp only [step] at h
    split at h
    case h_1 hgt =>
      split at h
      case h_1 => exact absurd h (by simp)
      case h_2 ev hins =>
        obtain rfl := Option.some.inj h
        rcases eq_or_ne ev.dst t with heq | hne
        · left
          refine ⟨?_, ev, pkt, rq, rfl⟩
          simp only [traps_to]
          rw [hgt, hins]
          simp [heq]
        · right; left
          exact ⟨handle_trap_pending_ne s ev pkt rq hne,
            handle_trap_active_ne s ev pkt rq hne⟩
      case h_3 hins =>
        obtain rfl := Option.some.inj h
        right; left
        exact ⟨rfl, id⟩
    case h_2 hgt =>
      split at h
      · obtain rfl := Option.some.inj h
        right; left
        exact ⟨rfl, id⟩
      · obtain rfl := Option.some.inj h
        right; left
        exact ⟨rfl, id⟩
    case h_3 hgt =>
      obtain rfl := Option.some.inj h
      right; left
      exact ⟨rfl, id⟩
  | tunnel_data h0 cs =>
    simp only [step] at h
    split at h
    case h_1 => exact absurd h (by simp)
    case h_2 =>
      obtain rfl := Option.some.inj h
      right; left
      exact ⟨rfl, id⟩
  | feedback k succ =>
    simp only [step] at h
    obtain rfl := Option.some.inj h
    rcases eq_or_ne k t with rfl | hne
    · right; right
      refine ⟨feedback_pending_self s k succ, ?_⟩
      intro hp
      have hl : alist_lookup k s.pending_syns = none := by
        cases hlk : alist_lookup k s.pending_syns with
        | none => rfl
        | some v => rw [pending_has, hlk] at hp; simp at hp
      simp only [handle_handshake_feedback]
      rw [hl]
    · right; left
      exact feedback_ne s k succ hne
  | sock_close h0 =>
    simp only [step] at h
    obtain rfl := Option.some.inj h
    right; left
    refine ⟨rfl, ?_⟩
    intro ha
    rw [active_to_eq] at ha ⊢
    rwa [active_in_set_closed] at ha
  | poll_reap =>
    simp only [step] at h
    split at h
    case isFalse => exact absurd h (by simp)
    case isTrue hg =>
      obtain rfl := Option.some.inj h
      right; left
      refine ⟨rfl, ?_⟩
      intro ha
      rw [active_to_eq] at ha ⊢
      exact active_in_reap ha

theorem run_O (t : SockAddr) : ∀ (evs : List StackEv) (s s' : StackState),
    run_events evs s = some s' → evs.countP (traps_to t) = 0 →
    ¬(pending_has s t = true ∧ active_to s t = true) →
    ¬(pending_has s' t = true ∧ active_to s' t = true) := by
  intro evs
  induction evs with
  | nil =>
    intro s s' hr hc hO
    obtain rfl := Option.some.inj hr
    exact hO
  | cons e es ih =>
    intro s s' hr hc hO
    rw [run_events] at hr
    cases hs1 : step e s with
    | none => rw [hs1] at hr; simp at hr
    | some s1 =>
      rw [hs1] at hr
      rw [List.countP_cons] at hc
      have heb : traps_to t e = false := by
        cases hb : traps_to t e with
        | false => rfl
        | true => rw [hb, if_pos rfl] at hc; omega
      have hc0 : es.countP (traps_to t) = 0 := by
        rw [heb, if_neg (by simp)] at hc
        omega
      rcases step_cases e s s1 t hs1 with ⟨htr, -⟩ | ⟨hpe, hae⟩ | ⟨hp1, -⟩
      · rw [htr] at heb; simp at heb
      · refine ih s1 s' hr hc0 ?_
        rintro ⟨a, b⟩
        rw [hpe] at a
        exact hO ⟨a, hae b⟩
      · refine ih s1 s' hr hc0 ?_
        rintro ⟨a, -⟩
        rw [hp1] at a
        simp at a

theorem run_Z (t : SockAddr) : ∀ (evs : List StackEv) (s s' : StackState),
    run_events evs s = some s' → evs.countP (traps_to t) ≤ 1 →
    pending_has s t = false → active_to s t = false →
    ¬(pending_has s' t = true ∧ active_to s' t = true) := by
  intro evs
  induction evs with
  | nil =>
    intro s s' hr hc hp ha
    obtain rfl := Option.some.inj hr
    rintro ⟨a, -⟩
    rw [hp] at a
    simp at a
  | cons e es ih =>
    intro s s' hr hc hp ha
    rw [run_events] at hr
    cases hs1 : step e s with
    | none => rw [hs1] at hr; simp at hr
    | some s1 =>
      rw [hs1] at hr
      rw [List.countP_cons] at hc
      by_cases he : traps_to t e = true
      · have hc0 : es.countP (traps_to t) = 0 := by
          rw [he, if_pos rfl] at hc
          omega
        rcases step_cases e s s1 t hs1 with ⟨-, ev, pkt, rq, rfl⟩ | ⟨hpe, hae⟩ | ⟨hp1, -⟩
        · exact run_O t es _ s' hr hc0 (handle_trap_ZO s ev pkt rq t hp ha)
        · refine run_O t es s1 s' hr hc0 ?_
          rintro ⟨a, -⟩
          rw [hpe, hp] at a
          simp at a
        · refine run_O t es s1 s' hr hc0 ?_
          rintro ⟨a, -⟩
          rw [hp1] at a
          simp at a
      · have heb : traps_to t e = false := by
          revert he
          cases traps_to t e <;> simp
        have hc' : es.countP (traps_to t) ≤ 1 := by
          rw [heb, if_neg (by simp)] at hc
          omega
        rcases step_cases e s s1 t hs1 with ⟨htr, -⟩ | ⟨hpe, hae⟩ | ⟨hp1, hid⟩
        · exact absurd htr he
        · have ha1 : active_to s1 t = false := by
            cases hb : active_to s1 t with
            | false => rfl
            | true => rw [hae hb] at ha; simp at ha
          exact ih s1 s' hr hc' (hpe.trans hp) ha1
        · obtain rfl := hid hp
          exact ih s1 s' hr hc' hp ha

/-- Amended claim C3: along any panic-free run of the event loop from the
fresh stack in which at most one arriving packet traps to a target endpoint,
no pending SYN for that target ever coexists (at the end of the run) with an
active tunnel listening on it.  (With two traps to the same target in
Consistent mode the exclusion fails, as `pending_active_coexist` shows.) -/
theorem single_trap_exclusion (m : HandshakeMode) (rq rl : Bool) (evs : List StackEv)
    (t : SockAddr) (s' : StackState)
    (hrun : run_events evs (init_state m rq rl) = some s')
    (hcount : evs.countP (traps_to t) ≤ 1) :
    ¬(pending_has s' t = true ∧ active_to s' t = true) :=
  run_Z t evs (init_state m rq rl) s' hrun hcount rfl rfl

/-- Witness for `single_trap_exclusion`: the Consistent-mode trace that traps
`pkt44` once and then receives successful feedback. -/
theorem single_trap_exclusion_witness :
    run_events c3_single_events (init_state .Consistent true true) = some c3_single_state ∧
    c3_single_events.countP (traps_to syn_target) ≤ 1 ∧
    ¬(pending_has c3_single_state syn_target = true ∧
      active_to c3_single_state syn_target = true) :=
  ⟨by rfl, by decide,
   single_trap_exclusion .Consistent true true c3_single_events syn_target
     c3_single_state (by rfl) (by decide)⟩

end Prism
